import Mathlib

/-!
Verification of tree-property-analyser.

A shallow embedding of the pure core of the analyser:

* `src/utils/parsePrice.js` (`parsePrice`),
* `src/services/streetExtractor.js` (`extractStreetNames`, `traverse`),
* `src/services/priceCalculator.js` (`calculateAveragePrices`),
* `src/data/parsePropertyData.js` (`parsePropertyData`), the CSV parser being a
  parameter that turns the file content into rows or into a parsing error.

JavaScript values are embedded as follows.

* A string is a `List Char` (the code points of a well-formed string).
* A Number is a `JSNumber`: NaN, the two infinities, the negative zero, or a
  finite rational (`fin 0` is the positive zero).  Results of arithmetic and of
  string-to-number conversion are rounded to IEEE-754 binary64, round to
  nearest, ties to even (`JSNumber.ofSignMag`).
* `String.prototype.toLowerCase` is a parameter `lower` of the functions that
  call it: the Unicode case tables are not part of the repository.
* A thrown `Error` is the `error` case of `Except`.
* Logging is omitted: it has no effect on any returned value.
-/

namespace TreePropertyAnalyser

/-- A JavaScript string, as the list of its characters. -/
abbrev JSString := List Char

/-- Equality of two outcomes (a returned value or a thrown error) is decidable. -/
instance instDecidableEqExcept {ε α : Type} [DecidableEq ε] [DecidableEq α] :
    DecidableEq (Except ε α)
  | Except.ok a, Except.ok b =>
    if h : a = b then isTrue (h ▸ rfl) else isFalse (fun h2 => h (Except.ok.inj h2))
  | Except.error a, Except.error b =>
    if h : a = b then isTrue (h ▸ rfl) else isFalse (fun h2 => h (Except.error.inj h2))
  | Except.ok _, Except.error _ => isFalse (fun h => Except.noConfusion h)
  | Except.error _, Except.ok _ => isFalse (fun h => Except.noConfusion h)

/-! ## Numbers -/

/-- A JavaScript Number value.  `fin q` is the finite value `q`, with `fin 0`
the positive zero; `negZero` is `-0`. -/
inductive JSNumber where
  | nan
  | posInf
  | negInf
  | negZero
  | fin (q : ℚ)
deriving DecidableEq

namespace JSNumber

/-- Round a non-negative rational to the nearest natural number, a tie going
to the even neighbour. -/
def roundHalfEven (q : ℚ) : ℕ :=
  let f := ⌊q⌋₊
  let r := q - f
  if r < 1 / 2 then f
  else if 1 / 2 < r then f + 1
  else if f % 2 = 0 then f else f + 1

/-- Count the halvings that bring `n` below `2`; `fuel` bounds their number. -/
def log2Fuel : ℕ → ℕ → ℕ
  | 0, _ => 0
  | fuel + 1, n => if 2 ≤ n then log2Fuel fuel (n / 2) + 1 else 0

/-- The integer part of the binary logarithm of a natural number. -/
def natLog2 (n : ℕ) : ℕ := log2Fuel n n

/-- The integer part of the binary logarithm of a positive rational. -/
def floorLog2 (q : ℚ) : ℤ :=
  if 1 ≤ q then (natLog2 ⌊q⌋₊ : ℤ) else -((natLog2 (⌈q⁻¹⌉₊ - 1) : ℤ) + 1)

/-- Round a positive rational to binary64: 53 significant bits, the exponent
of the unit in the last place bounded below by `-1074` (subnormals), and
`none` when the rounded magnitude reaches `2 ^ 1024` (overflow). -/
def roundMag (q : ℚ) : Option ℚ :=
  let e := max (floorLog2 q) (-1022)
  let ulp : ℚ := 2 ^ (e - 52)
  let r := (roundHalfEven (q / ulp) : ℚ) * ulp
  if 2 ^ 1024 ≤ r then none else some r

/-- The Number with sign `neg` whose magnitude is the binary64 rounding of the
non-negative rational `q`. -/
def ofSignMag (neg : Bool) (q : ℚ) : JSNumber :=
  match (if q = 0 then some 0 else roundMag q) with
  | none => if neg then negInf else posInf
  | some r =>
    if r = 0 then (if neg then negZero else fin 0)
    else fin (if neg then -r else r)

/-- The Number value for a rational. -/
def ofRat (q : ℚ) : JSNumber := ofSignMag (decide (q < 0)) |q|

/-- The Number of an array length (an integer below `2 ^ 32`, hence exact). -/
def ofNat (n : ℕ) : JSNumber := fin n

/-- Sign bit. -/
def isNeg : JSNumber → Bool
  | negInf => true
  | negZero => true
  | fin q => decide (q < 0)
  | _ => false

/-- The rational value of a finite Number (`0` for the others). -/
def toRat : JSNumber → ℚ
  | fin q => q
  | _ => 0

/-- The global `isNaN` on a Number. -/
def isNaN : JSNumber → Bool
  | nan => true
  | _ => false

/-- The relation `x < y` on Numbers (false when either side is NaN). -/
def lt : JSNumber → JSNumber → Bool
  | nan, _ => false
  | _, nan => false
  | posInf, _ => false
  | _, posInf => true
  | _, negInf => false
  | negInf, _ => true
  | x, y => decide (x.toRat < y.toRat)

/-- `Number::add`, the `+` of two Numbers. -/
def add : JSNumber → JSNumber → JSNumber
  | nan, _ => nan
  | _, nan => nan
  | posInf, negInf => nan
  | negInf, posInf => nan
  | posInf, _ => posInf
  | _, posInf => posInf
  | negInf, _ => negInf
  | _, negInf => negInf
  | negZero, y => y
  | x, negZero => x
  | fin a, fin b => if a + b = 0 then fin 0 else ofRat (a + b)

/-- `Number::divide`, the `/` of two Numbers. -/
def div : JSNumber → JSNumber → JSNumber
  | nan, _ => nan
  | _, nan => nan
  | posInf, posInf => nan
  | posInf, negInf => nan
  | negInf, posInf => nan
  | negInf, negInf => nan
  | posInf, y => if y.isNeg then negInf else posInf
  | negInf, y => if y.isNeg then posInf else negInf
  | x, posInf => if x.isNeg then negZero else fin 0
  | x, negInf => if x.isNeg then fin 0 else negZero
  | x, y =>
    if y.toRat = 0 then
      (if x.toRat = 0 then nan
       else if xor x.isNeg y.isNeg then negInf else posInf)
    else ofSignMag (xor x.isNeg y.isNeg) (|x.toRat| / |y.toRat|)

end JSNumber

/-! ## `src/utils/parsePrice.js` -/

/-- The characters removed by `String.prototype.trim` and skipped by `Number`
around a numeric string: WhiteSpace and LineTerminator. -/
def isWhiteSpace (c : Char) : Bool :=
  c.toNat ∈ [0x9, 0xA, 0xB, 0xC, 0xD, 0x20, 0xA0, 0x1680, 0x2000, 0x2001, 0x2002, 0x2003,
    0x2004, 0x2005, 0x2006, 0x2007, 0x2008, 0x2009, 0x200A, 0x2028, 0x2029, 0x202F,
    0x205F, 0x3000, 0xFEFF]

/-- `String.prototype.trim`. -/
def trim (s : JSString) : JSString := (s.dropWhile isWhiteSpace).rdropWhile isWhiteSpace

/-- A decimal digit `0`..`9`. -/
def isDecimalDigit (c : Char) : Bool := decide (48 ≤ c.toNat) && decide (c.toNat ≤ 57)

/-- The value of a digit of radix up to 16, if the character is one. -/
def digitValue (c : Char) : Option ℕ :=
  if 48 ≤ c.toNat ∧ c.toNat ≤ 57 then some (c.toNat - 48)
  else if 97 ≤ c.toNat ∧ c.toNat ≤ 102 then some (c.toNat - 87)
  else if 65 ≤ c.toNat ∧ c.toNat ≤ 70 then some (c.toNat - 55)
  else none

/-- Whether the character is a digit of the given radix. -/
def isDigitOf (radix : ℕ) (c : Char) : Bool :=
  match digitValue c with
  | some d => decide (d < radix)
  | none => false

/-- The mathematical value of a run of digits in the given radix. -/
def digitsValue (radix : ℕ) (ds : List Char) : ℕ :=
  ds.foldl (fun n c => radix * n + (digitValue c).getD 0) 0

/-- A non-empty run of digits of the given radix. -/
def isDigits (radix : ℕ) (ds : List Char) : Bool := !ds.isEmpty && ds.all (isDigitOf radix)

/-- A non-empty run of decimal digits. -/
def isDecimalDigits (ds : List Char) : Bool := !ds.isEmpty && ds.all isDecimalDigit

/-- The optional `ExponentPart` of a decimal literal: the exponent it denotes
(`0` when absent), or `none` when the text is not an exponent part. -/
def parseExponentPart : List Char → Option ℤ
  | [] => some 0
  | c :: rest =>
    if c = 'e' ∨ c = 'E' then
      match rest with
      | [] => none
      | d :: ds =>
        if d = '+' then (if isDecimalDigits ds then some (digitsValue 10 ds : ℤ) else none)
        else if d = '-' then (if isDecimalDigits ds then some (-(digitsValue 10 ds : ℤ)) else none)
        else if isDecimalDigits (d :: ds) then some (digitsValue 10 (d :: ds) : ℤ) else none
    else none

/-- The mathematical value of a `StrUnsignedDecimalLiteral` other than
`Infinity`: `digits . digits? exponent?`, `. digits exponent?` or
`digits exponent?`; `none` when the text is none of these. -/
def parseUnsignedDecimal (cs : List Char) : Option ℚ :=
  let ip := cs.takeWhile isDecimalDigit
  match cs.dropWhile isDecimalDigit with
  | [] => if ip = [] then none else some (digitsValue 10 ip : ℚ)
  | c :: rest =>
    if c = '.' then
      let fp := rest.takeWhile isDecimalDigit
      if ip = [] ∧ fp = [] then none
      else
        (parseExponentPart (rest.dropWhile isDecimalDigit)).map fun e =>
          ((digitsValue 10 ip : ℚ) + (digitsValue 10 fp : ℚ) / 10 ^ fp.length) * 10 ^ e
    else if ip = [] then none
    else (parseExponentPart (c :: rest)).map fun e => (digitsValue 10 ip : ℚ) * 10 ^ e

/-- The mathematical value of a `NonDecimalIntegerLiteral`: `0b`, `0o` or `0x`
(either case) followed by at least one digit of that radix. -/
def parseNonDecimal : List Char → Option ℕ
  | z :: x :: ds =>
    if z = '0' then
      if x = 'b' ∨ x = 'B' then (if isDigits 2 ds then some (digitsValue 2 ds) else none)
      else if x = 'o' ∨ x = 'O' then (if isDigits 8 ds then some (digitsValue 8 ds) else none)
      else if x = 'x' ∨ x = 'X' then (if isDigits 16 ds then some (digitsValue 16 ds) else none)
      else none
    else none
  | _ => none

/-- The text of the literal `Infinity`. -/
def infinityText : List Char := "Infinity".toList

/-- The Number of a `StrUnsignedDecimalLiteral` carrying the sign `neg`. -/
def unsignedDecimalToNumber (neg : Bool) (cs : List Char) : JSNumber :=
  if cs = infinityText then (if neg then JSNumber.negInf else JSNumber.posInf)
  else
    match parseUnsignedDecimal cs with
    | some mv => JSNumber.ofSignMag neg mv
    | none => JSNumber.nan

/-- `Number(s)` for a string `s` (StringToNumber): white space around the text
is skipped, the empty text is `+0`, a text outside the `StrNumericLiteral`
grammar is NaN, and the mathematical value of a literal is rounded to the
nearest binary64 (correct rounding, for literals of any length). -/
def stringToNumber (s : JSString) : JSNumber :=
  match trim s with
  | [] => JSNumber.fin 0
  | c :: rest =>
    match parseNonDecimal (c :: rest) with
    | some n => JSNumber.ofSignMag false n
    | none =>
      if c = '+' then unsignedDecimalToNumber false rest
      else if c = '-' then unsignedDecimalToNumber true rest
      else unsignedDecimalToNumber false (c :: rest)

/-- The text given to `Number` by `parsePrice`:
`priceStr.replace(/[€\uFFFD]/g, "").replace(/,/g, "").trim()`. -/
def cleanPrice (priceStr : JSString) : JSString :=
  trim ((priceStr.filter (fun c => !(c == '€' || c == Char.ofNat 0xFFFD))).filter
    (fun c => !(c == ',')))

/-- The function `parsePrice` of `src/utils/parsePrice.js`. -/
def parsePrice (priceStr : JSString) : JSNumber := stringToNumber (cleanPrice priceStr)

/-! ## `src/services/streetExtractor.js` -/

/-- A JavaScript value: the values of a parsed JSON document, `undefined`, and
`fn` for a function object (which has no enumerable own property). -/
inductive JSValue where
  | undefined
  | null
  | bool (b : Bool)
  | num (n : JSNumber)
  | str (s : JSString)
  | arr (items : List JSValue)
  | obj (entries : List (JSString × JSValue))
  | fn

namespace JSValue

/-- ToBoolean: the values that pass `if (v)`. -/
def truthy : JSValue → Bool
  | undefined => false
  | null => false
  | bool b => b
  | num n => !(n == JSNumber.nan || n == JSNumber.fin 0 || n == JSNumber.negZero)
  | str s => !s.isEmpty
  | _ => true

/-- The test `typeof value === "object" && value !== null`. -/
def isObject : JSValue → Bool
  | arr _ => true
  | obj _ => true
  | _ => false

/-- The test `typeof value === "number"`. -/
def isNumber : JSValue → Bool
  | num _ => true
  | _ => false

end JSValue

/-- A plain object (prototype `Object.prototype`), as the list of its own
enumerable string-keyed properties in the order `Object.entries` yields them;
the keys are pairwise distinct. -/
abbrev JSObject := List (JSString × JSValue)

/-- The names of the function-valued properties every plain object inherits
from `Object.prototype`. -/
def objectPrototypeMethods : List JSString :=
  ["constructor".toList, "hasOwnProperty".toList, "isPrototypeOf".toList,
   "propertyIsEnumerable".toList, "toLocaleString".toList, "toString".toList,
   "valueOf".toList, "__defineGetter__".toList, "__defineSetter__".toList,
   "__lookupGetter__".toList, "__lookupSetter__".toList]

/-- The name of the accessor of `Object.prototype` that reads the prototype. -/
def protoKey : JSString := "__proto__".toList

/-- The property read `o[key]` on a plain object: the own property when there
is one, otherwise what `Object.prototype` provides (`__proto__` reads the
prototype itself, an object without enumerable own properties), otherwise
`undefined`. -/
def getProp (o : JSObject) (key : JSString) : JSValue :=
  match o.lookup key with
  | some v => v
  | none =>
    if key = protoKey then JSValue.obj []
    else if key ∈ objectPrototypeMethods then JSValue.fn
    else JSValue.undefined

/-- The decimal text of an array index. -/
def indexKey (i : ℕ) : JSString := Nat.toDigits 10 i

/-- `Object.entries(node)`. -/
def objectEntries : JSValue → List (JSString × JSValue)
  | JSValue.obj entries => entries
  | JSValue.arr items => items.enum.map fun p => (indexKey p.1, p.2)
  | JSValue.str s => s.enum.map fun p => (indexKey p.1, JSValue.str [p.2])
  | _ => []

mutual
/-- The local function `traverse` of `extractStreetNames` (lines 22-32). -/
def traverse : JSValue → List JSString
  | JSValue.obj entries => traverseEntries entries
  | JSValue.arr items => traverseItems 0 items
  | _ => []
termination_by structural v => v
/-- The loop of `traverse` over the entries of an object. -/
def traverseEntries : List (JSString × JSValue) → List JSString
  | [] => []
  | (key, value) :: rest =>
    (if value.isObject then traverse value
     else if value.isNumber then [key]
     else []) ++ traverseEntries rest
termination_by structural l => l
/-- The loop of `traverse` over the entries of an array, `i` being the index
of the first remaining element. -/
def traverseItems (i : ℕ) : List JSValue → List JSString
  | [] => []
  | value :: rest =>
    (if value.isObject then traverse value
     else if value.isNumber then [indexKey i]
     else []) ++ traverseItems (i + 1) rest
termination_by structural l => l
end

/-- The message of the error thrown for a missing category:
the text of line 19 with the category between apostrophes. -/
def categoryNotFound (category : JSString) : JSString :=
  "Category ".toList ++ [Char.ofNat 39] ++ category ++ [Char.ofNat 39] ++
    " not found in tree data".toList

/-- The function `extractStreetNames` of `src/services/streetExtractor.js`. -/
def extractStreetNames (treeData : JSObject) (category : JSString) :
    Except JSString (List JSString) :=
  if !(getProp treeData category).truthy then
    Except.error (categoryNotFound category)
  else
    Except.ok (traverse (getProp treeData category))

/-! ## `src/services/priceCalculator.js` -/

/-- An element of the array resolved by `parsePropertyData`. -/
structure PropertyRecord where
  street : JSString
  price : JSNumber
deriving DecidableEq

/-- The object returned by `calculateAveragePrices`. -/
structure AggregationResult where
  tallAverage : JSNumber
  shortAverage : JSNumber
deriving DecidableEq

/-- The filter callback of lines 27-31 and 34-38:
`streets.some((street) => street.toLowerCase() === prop.street.toLowerCase())`. -/
def matchesStreet (lower : JSString → JSString) (streets : List JSString)
    (prop : PropertyRecord) : Bool :=
  streets.any (fun street => lower street == lower prop.street)

/-- The arrays `tallPrices` and `shortPrices` (lines 26-39):
`properties.filter(...).map((prop) => prop.price)`. -/
def matchedPrices (lower : JSString → JSString) (streets : List JSString)
    (properties : List PropertyRecord) : List JSNumber :=
  (properties.filter (matchesStreet lower streets)).map (fun prop => prop.price)

/-- The expression of lines 48-50 and 51-53:
`prices.length ? prices.reduce((sum, price) => sum + price, 0) / prices.length : 0`. -/
def averageOf (prices : List JSNumber) : JSNumber :=
  if prices.length ≠ 0 then
    (prices.foldl (fun sum price => sum.add price) (JSNumber.fin 0)).div
      (JSNumber.ofNat prices.length)
  else JSNumber.fin 0

/-- Lines 26-55 of `calculateAveragePrices`: the result computed from the two
extracted street lists and the parsed property records. -/
def averagePrices (lower : JSString → JSString) (tallStreets shortStreets : List JSString)
    (properties : List PropertyRecord) : AggregationResult :=
  let tallPrices := matchedPrices lower tallStreets properties
  let shortPrices := matchedPrices lower shortStreets properties
  { tallAverage := averageOf tallPrices, shortAverage := averageOf shortPrices }

/-- The function `calculateAveragePrices`, given what its two awaited calls
resolve to: `treeData` from `fetchTreeData(treeUrl)` and `properties` from
`parsePropertyData(propertyFile)`, the latter possibly rejected.  Both
extractions run before the property file is read. -/
def calculateAveragePrices (lower : JSString → JSString) (treeData : JSObject)
    (properties : Except JSString (List PropertyRecord)) : Except JSString AggregationResult := do
  let tallStreets ← extractStreetNames treeData "tall".toList
  let shortStreets ← extractStreetNames treeData "short".toList
  let props ← properties
  pure (averagePrices lower tallStreets shortStreets props)

/-- ASCII lower-casing, the restriction of `toLowerCase` to strings whose
letters are ASCII; used to evaluate the functions on concrete inputs. -/
def asciiLower (s : JSString) : JSString := s.map Char.toLower

/-! ## `src/data/parsePropertyData.js` -/

/-- A row delivered by the CSV parser under `columns: true`: the fields of one
record under the names of the header, in header order, the names pairwise
distinct.  A column that a short record does not reach has no entry. -/
abbrev Row := List (JSString × JSString)

/-- The column name read at line 42. -/
def streetNameColumn : JSString := "Street Name".toList

/-- The column name read at line 43. -/
def priceColumn : JSString := "Price".toList

/-- The test `!field` on what `row[column]` yields: `undefined` for a column
without entry, or the empty string. -/
def isMissing : Option JSString → Bool
  | none => true
  | some s => s.isEmpty

/-- The handler of the `data` event (lines 39-61), as the effect of one row
on the array `properties`. -/
def onData (properties : List PropertyRecord) (row : Row) : List PropertyRecord :=
  let street := row.lookup streetNameColumn
  let priceStr := row.lookup priceColumn
  if isMissing street || isMissing priceStr then properties
  else
    let price := parsePrice (priceStr.getD [])
    if !price.isNaN && (JSNumber.fin 0).lt price then
      properties ++ [{ street := street.getD [], price := price }]
    else properties

/-- The array resolved at the `end` event: `properties`, initially empty,
after the handler has run on every row in order. -/
def collectRows (rows : List Row) : List PropertyRecord := rows.foldl onData []

/-- What a failed `fs.readFile` rejects with, or what line 25 throws: the
`code` of the error (absent for a plain `Error`) and the text of its
`message`. -/
structure ReadError where
  code : Option JSString
  message : JSString
deriving DecidableEq

/-- The message of the error thrown at line 25. -/
def emptyFileMessage : JSString := "CSV file is empty".toList

/-- The prefix of the message of line 77. -/
def readErrorPrefix : JSString := "Error reading CSV: ".toList

/-- The prefix of the message of line 75. -/
def notFoundPrefix : JSString := "Property data file not found: ".toList

/-- The prefix of the message of line 68. -/
def parseErrorPrefix : JSString := "Error parsing CSV: ".toList

/-- The code of the error of a missing file. -/
def enoent : JSString := "ENOENT".toList

/-- The `catch` block (lines 71-78): the message of the error it throws. -/
def catchBlock (filePath : JSString) (error : ReadError) : JSString :=
  if error.code = some enoent then notFoundPrefix ++ filePath
  else readErrorPrefix ++ error.message

/-- The function `parsePropertyData`, given what `fs.readFile(filePath)`
settles to and the CSV parser `parse`, which delivers the rows of a content or
fails with the message of its `error` event.  The promise returned at line 30
is not awaited inside the `try`, so its rejection bypasses the `catch`
block. -/
def parsePropertyData (parse : JSString → Except JSString (List Row)) (filePath : JSString)
    (readFile : Except ReadError JSString) : Except JSString (List PropertyRecord) :=
  match readFile with
  | Except.error error => Except.error (catchBlock filePath error)
  | Except.ok data =>
    if (trim data).isEmpty then
      Except.error (catchBlock filePath { code := none, message := emptyFileMessage })
    else
      match parse data with
      | Except.error message => Except.error (parseErrorPrefix ++ message)
      | Except.ok rows => Except.ok (collectRows rows)

/-! ## Specification-side definitions -/

/-- Specification of the selection: the records, in order and with their
multiplicity, whose lower-cased street is the lower-cased form of some entry
of the street list. -/
def selectedRecords (lower : JSString → JSString) (streets : List JSString)
    (properties : List PropertyRecord) : List PropertyRecord :=
  properties.filter fun prop => decide (lower prop.street ∈ streets.map lower)

/-- Specification of the sum of the prices of a list of records, added from
left to right starting at `0` with the `+` of Numbers. -/
def sumOfPrices (records : List PropertyRecord) : JSNumber :=
  (records.map fun prop => prop.price).foldl JSNumber.add (JSNumber.fin 0)

/-- Specification of the mean: the sum of the prices divided by the number of
records. -/
def meanPrice (records : List PropertyRecord) : JSNumber :=
  (sumOfPrices records).div (JSNumber.ofNat records.length)

/-- A valid property record: its price is a finite number greater than `0`. -/
def PropertyRecord.Valid (prop : PropertyRecord) : Prop :=
  ∃ q : ℚ, prop.price = JSNumber.fin q ∧ 0 < q

/-- A Number that is `+∞` or a finite value that is not below zero. -/
def JSNumber.NonNeg (x : JSNumber) : Prop :=
  x = JSNumber.posInf ∨ ∃ q : ℚ, x = JSNumber.fin q ∧ 0 ≤ q

/-- A value that is neither a mapping, an array nor a number. -/
inductive OtherValue where
  | undefined
  | null
  | bool (b : Bool)
  | str (s : JSString)
  | fn

/-- The JavaScript value an `OtherValue` stands for. -/
def OtherValue.toJS : OtherValue → JSValue
  | OtherValue.undefined => JSValue.undefined
  | OtherValue.null => JSValue.null
  | OtherValue.bool b => JSValue.bool b
  | OtherValue.str s => JSValue.str s
  | OtherValue.fn => JSValue.fn

/-- Specification of a finite nesting of mappings: an entry is a street name
with a numeric value, or a key with a value of another kind that is not a
mapping (a string, a boolean, `null`), or a key with a nested mapping. -/
inductive StreetEntry where
  | street (key : JSString) (height : JSNumber)
  | other (key : JSString) (value : OtherValue)
  | group (key : JSString) (children : List StreetEntry)

mutual
/-- The key/value pair a specification entry stands for. -/
def StreetEntry.toJS : StreetEntry → JSString × JSValue
  | StreetEntry.street key height => (key, JSValue.num height)
  | StreetEntry.other key value => (key, value.toJS)
  | StreetEntry.group key children => (key, JSValue.obj (StreetEntry.toJSList children))
termination_by structural e => e
/-- The entries of the mapping a list of specification entries stands for. -/
def StreetEntry.toJSList : List StreetEntry → List (JSString × JSValue)
  | [] => []
  | e :: rest => e.toJS :: StreetEntry.toJSList rest
termination_by structural l => l
end

mutual
/-- Specification of the depth-first walk: what one entry contributes, the
key itself for a numeric value, the walk of the subtree for a mapping, and
nothing for a value of another kind. -/
def StreetEntry.walk : StreetEntry → List JSString
  | StreetEntry.street key _ => [key]
  | StreetEntry.other _ _ => []
  | StreetEntry.group _ children => StreetEntry.walkList children
termination_by structural e => e
/-- Specification of the depth-first walk of a mapping: the concatenation of
the contributions of its entries, in order. -/
def StreetEntry.walkList : List StreetEntry → List JSString
  | [] => []
  | e :: rest => e.walk ++ StreetEntry.walkList rest
termination_by structural l => l
end

mutual
/-- The number of numeric leaves below an entry. -/
def StreetEntry.leaves : StreetEntry → ℕ
  | StreetEntry.street _ _ => 1
  | StreetEntry.other _ _ => 0
  | StreetEntry.group _ children => StreetEntry.leavesList children
termination_by structural e => e
/-- The number of numeric leaves of a mapping. -/
def StreetEntry.leavesList : List StreetEntry → ℕ
  | [] => 0
  | e :: rest => e.leaves + StreetEntry.leavesList rest
termination_by structural l => l
end

mutual
/-- A finite nesting of mappings: an object none of whose values, at any
depth, is an array. -/
def JSValue.isNesting : JSValue → Bool
  | JSValue.obj entries => isNestingEntries entries
  | _ => false
termination_by structural v => v
/-- The entries of a finite nesting of mappings: every value is a nesting of
mappings or is not an object at all. -/
def isNestingEntries : List (JSString × JSValue) → Bool
  | [] => true
  | (_, value) :: rest => (!value.isObject || value.isNesting) && isNestingEntries rest
termination_by structural l => l
end

/-- The values `traverse` neither descends into nor records: everything but
objects, arrays and numbers. -/
def JSValue.isSkipped (v : JSValue) : Bool := !v.isObject && !v.isNumber

mutual
/-- The value with every skipped entry of every mapping removed; arrays keep
all their elements (and so their indices). -/
def prune : JSValue → JSValue
  | JSValue.obj entries => JSValue.obj (pruneEntries entries)
  | JSValue.arr items => JSValue.arr (pruneItems items)
  | JSValue.undefined => JSValue.undefined
  | JSValue.null => JSValue.null
  | JSValue.bool b => JSValue.bool b
  | JSValue.num n => JSValue.num n
  | JSValue.str s => JSValue.str s
  | JSValue.fn => JSValue.fn
termination_by structural v => v
/-- The entries of a mapping without the skipped ones, pruned in depth. -/
def pruneEntries : List (JSString × JSValue) → List (JSString × JSValue)
  | [] => []
  | (key, value) :: rest =>
    if value.isSkipped then pruneEntries rest else (key, prune value) :: pruneEntries rest
termination_by structural l => l
/-- The elements of an array, each pruned in depth. -/
def pruneItems : List JSValue → List JSValue
  | [] => []
  | value :: rest => prune value :: pruneItems rest
termination_by structural l => l
end

/-- Specification of "a key of the catalogue with a truthy value": the
category is among the catalogue's own keys and its value is truthy. -/
def ownTruthy (treeData : JSObject) (category : JSString) : Bool :=
  match treeData.lookup category with
  | some v => v.truthy
  | none => false

/-- The currency markers `parsePrice` deletes: the euro sign and the
replacement character U+FFFD. -/
def isCurrencyMarker (c : Char) : Bool := c == '€' || c == Char.ofNat 0xFFFD

/-- The characters `parsePrice` keeps: all but the currency markers and the
comma. -/
def isKept (c : Char) : Bool := !(isCurrencyMarker c || c == ',')

/-- Specification of the number denoted by the digits `ip` of an integer part
and the digits `fp` of a fraction. -/
def decimalValue (ip fp : List Char) : ℚ :=
  (digitsValue 10 ip : ℚ) + (digitsValue 10 fp : ℚ) / 10 ^ fp.length

/-- The text of an optional fraction: nothing, or a point and what follows. -/
def fractionText : Option (List Char) → List Char
  | none => []
  | some fp => '.' :: fp

/-- A possibly empty run of decimal digits. -/
def IsDigitRun (ds : List Char) : Prop := ∀ c ∈ ds, isDecimalDigit c = true

/-- An optional sign. -/
def IsSign (sign : List Char) : Prop := sign = [] ∨ sign = ['+'] ∨ sign = ['-']

/-- The grammar of `ExponentPart`: `e` or `E`, an optional sign, and at
least one decimal digit. -/
def IsExponentPart (ex : List Char) : Prop :=
  ∃ ind sign ds, (ind = 'e' ∨ ind = 'E') ∧ IsSign sign ∧ IsDigitRun ds ∧ ds ≠ [] ∧
    ex = ind :: (sign ++ ds)

/-- The grammar of `StrUnsignedDecimalLiteral`: `Infinity`, or
`digits . digits? exponent?`, or `. digits exponent?`, or `digits exponent?`. -/
def IsUnsignedDecimal (cs : List Char) : Prop :=
  cs = infinityText ∨
  (∃ ip fp ex, IsDigitRun ip ∧ ip ≠ [] ∧ IsDigitRun fp ∧ (ex = [] ∨ IsExponentPart ex) ∧
    cs = ip ++ '.' :: (fp ++ ex)) ∨
  (∃ fp ex, IsDigitRun fp ∧ fp ≠ [] ∧ (ex = [] ∨ IsExponentPart ex) ∧ cs = '.' :: (fp ++ ex)) ∨
  (∃ ip ex, IsDigitRun ip ∧ ip ≠ [] ∧ (ex = [] ∨ IsExponentPart ex) ∧ cs = ip ++ ex)

/-- The grammar of `NonDecimalIntegerLiteral`: `0b`, `0o` or `0x`, in either
case, and at least one digit of the radix. -/
def IsNonDecimal (cs : List Char) : Prop :=
  ∃ x ds, cs = '0' :: x :: ds ∧ ds ≠ [] ∧
    (((x = 'b' ∨ x = 'B') ∧ ∀ c ∈ ds, isDigitOf 2 c = true) ∨
     ((x = 'o' ∨ x = 'O') ∧ ∀ c ∈ ds, isDigitOf 8 c = true) ∨
     ((x = 'x' ∨ x = 'X') ∧ ∀ c ∈ ds, isDigitOf 16 c = true))

/-- The grammar of `StrNumericLiteral`: a non-decimal integer literal, or an
optionally signed unsigned decimal literal. -/
def IsStrNumericLiteral (cs : List Char) : Prop :=
  IsNonDecimal cs ∨ ∃ sign u, IsSign sign ∧ IsUnsignedDecimal u ∧ cs = sign ++ u

/-- Specification of the reading "an optionally signed run of at least one
decimal digit with an optional decimal fraction". -/
def isSignedDigitsWithFraction (cs : List Char) : Bool :=
  let body := match cs with
    | [] => []
    | c :: rest => if c = '+' ∨ c = '-' then rest else c :: rest
  !(body.takeWhile isDecimalDigit).isEmpty &&
    (match body.dropWhile isDecimalDigit with
     | [] => true
     | c :: fp => c == '.' && fp.all isDecimalDigit)

/-- Specification of the noise of the claim on `parsePrice`: every character
other than a decimal digit, a comma, the decimal point and the minus sign. -/
def isClaimedNoise (c : Char) : Bool :=
  !(isDecimalDigit c || c == ',' || c == '.' || c == '-')

/-- The relation `x <= y` on Numbers: neither side is NaN and `y < x` fails. -/
def JSNumber.le (x y : JSNumber) : Bool := !(x.isNaN || y.isNaN) && !(y.lt x)

/-- The global `isFinite` on a Number. -/
def JSNumber.isFinite : JSNumber → Bool
  | JSNumber.fin _ => true
  | JSNumber.negZero => true
  | _ => false

/-- Specification of the record of a row: none when the street or the price
field is missing or empty, none when the parsed price is NaN or at most `0`,
otherwise the street with the parsed price. -/
def recordOfRow (row : Row) : Option PropertyRecord :=
  match row.lookup streetNameColumn, row.lookup priceColumn with
  | some street, some priceStr =>
    if street = [] ∨ priceStr = [] then none
    else if (parsePrice priceStr).isNaN = true ∨ (parsePrice priceStr).le (JSNumber.fin 0) = true
    then none
    else some { street := street, price := parsePrice priceStr }
  | _, _ => none

/-! ## Lemmas on the selection -/

theorem matchesStreet_iff (lower : JSString → JSString) (streets : List JSString)
    (prop : PropertyRecord) :
    matchesStreet lower streets prop = true ↔ ∃ s ∈ streets, lower s = lower prop.street := by
  simp [matchesStreet, List.any_eq_true]

theorem matchesStreet_eq_decide (lower : JSString → JSString) (streets : List JSString)
    (prop : PropertyRecord) :
    matchesStreet lower streets prop = decide (lower prop.street ∈ streets.map lower) := by
  rw [Bool.eq_iff_iff, matchesStreet_iff]
  simp [List.mem_map]

theorem filter_matchesStreet (lower : JSString → JSString) (streets : List JSString)
    (properties : List PropertyRecord) :
    properties.filter (matchesStreet lower streets) = selectedRecords lower streets properties := by
  unfold selectedRecords
  congr 1
  funext prop
  exact matchesStreet_eq_decide lower streets prop

theorem matchedPrices_eq (lower : JSString → JSString) (streets : List JSString)
    (properties : List PropertyRecord) :
    matchedPrices lower streets properties =
      (selectedRecords lower streets properties).map fun prop => prop.price := by
  rw [matchedPrices, filter_matchesStreet]

theorem averageOf_map_price (records : List PropertyRecord) (h : records ≠ []) :
    averageOf (records.map fun prop => prop.price) = meanPrice records := by
  have hl : records.length ≠ 0 := by simpa using h
  simp [averageOf, meanPrice, sumOfPrices, hl]

theorem averageOf_nil : averageOf [] = JSNumber.fin 0 := by
  simp [averageOf]

/-! ## Lemmas on the sign of Numbers -/

namespace JSNumber

theorem roundMag_nonneg {q r : ℚ} (h : roundMag q = some r) : 0 ≤ r := by
  unfold roundMag at h
  simp only at h
  split at h
  · exact absurd h (by simp)
  · have h2 := Option.some.inj h
    rw [← h2]
    apply mul_nonneg
    · exact Nat.cast_nonneg _
    · positivity

theorem ofSignMag_false_nonNeg (q : ℚ) : (ofSignMag false q).NonNeg := by
  unfold ofSignMag
  split
  · left; simp
  · rename_i r hr
    by_cases h0 : r = 0
    · right; exact ⟨0, by simp [h0], le_refl _⟩
    · right
      refine ⟨r, by simp [h0], ?_⟩
      by_cases hq : q = 0
      · simp [hq] at hr; exact absurd hr.symm h0
      · simp [hq] at hr; exact roundMag_nonneg hr

theorem ofRat_nonNeg {q : ℚ} (h : 0 ≤ q) : (ofRat q).NonNeg := by
  unfold ofRat
  have : decide (q < 0) = false := by simpa using h
  rw [this]
  exact ofSignMag_false_nonNeg _

theorem add_nonNeg {x y : JSNumber} (hx : x.NonNeg) (hy : y.NonNeg) : (x.add y).NonNeg := by
  rcases hx with rfl | ⟨a, rfl, ha⟩ <;> rcases hy with rfl | ⟨b, rfl, hb⟩
  · left; rfl
  · left; rfl
  · left; rfl
  · simp only [add]
    split
    · right; exact ⟨0, rfl, le_refl _⟩
    · exact ofRat_nonNeg (add_nonneg ha hb)

theorem foldl_add_nonNeg (prices : List JSNumber) (acc : JSNumber) (hacc : acc.NonNeg)
    (h : ∀ p ∈ prices, p.NonNeg) :
    (prices.foldl (fun sum price => sum.add price) acc).NonNeg := by
  induction prices generalizing acc with
  | nil => simpa using hacc
  | cons p ps ih =>
    simp only [List.foldl_cons]
    apply ih
    · exact add_nonNeg hacc (h p (List.mem_cons_self _ _))
    · intro p2 hp2
      exact h p2 (List.mem_cons_of_mem _ hp2)

theorem div_ofNat_nonNeg {x : JSNumber} (hx : x.NonNeg) {n : ℕ} (hn : n ≠ 0) :
    (x.div (ofNat n)).NonNeg := by
  have hn2 : ¬ ((n : ℚ) < 0) := by simp
  have hn3 : (n : ℚ) ≠ 0 := by exact_mod_cast hn
  rcases hx with rfl | ⟨a, rfl, ha⟩
  · left; simp [div, ofNat, isNeg]
  · simp only [div, ofNat, toRat, isNeg]
    rw [if_neg hn3]
    have h1 : decide (a < 0) = false := by simpa using ha
    have h2 : decide ((n : ℚ) < 0) = false := by simp
    rw [h1, h2]
    exact ofSignMag_false_nonNeg _

theorem NonNeg.spec {x : JSNumber} (hx : x.NonNeg) :
    x.isNaN = false ∧ x.lt (fin 0) = false ∧ (x = fin 0 ∨ (fin 0).lt x = true) := by
  rcases hx with rfl | ⟨a, rfl, ha⟩
  · simp [isNaN, lt]
  · refine ⟨rfl, ?_, ?_⟩
    · simpa [lt, toRat] using ha
    · rcases eq_or_lt_of_le ha with h | h
      · left; rw [← h]
      · right; simpa [lt, toRat] using h

end JSNumber

theorem averageOf_nonNeg (prices : List JSNumber) (h : ∀ p ∈ prices, p.NonNeg) :
    (averageOf prices).NonNeg := by
  unfold averageOf
  split
  · rename_i hl
    exact JSNumber.div_ofNat_nonNeg
      (JSNumber.foldl_add_nonNeg prices _ (Or.inr ⟨0, rfl, le_refl _⟩) h) hl
  · exact Or.inr ⟨0, rfl, le_refl _⟩

theorem matchedPrices_nonNeg (lower : JSString → JSString) (streets : List JSString)
    (properties : List PropertyRecord) (h : ∀ prop ∈ properties, prop.Valid) :
    ∀ p ∈ matchedPrices lower streets properties, p.NonNeg := by
  intro p hp
  simp only [matchedPrices, List.mem_map, List.mem_filter] at hp
  obtain ⟨prop, ⟨hmem, _⟩, rfl⟩ := hp
  obtain ⟨q, hq, hpos⟩ := h prop hmem
  exact Or.inr ⟨q, hq, le_of_lt hpos⟩

namespace JSNumber

theorem log2Fuel_le (fuel : ℕ) : ∀ (n b : ℕ), n < 2 ^ (b + 1) → log2Fuel fuel n ≤ b := by
  induction fuel with
  | zero => intro n b _; simp [log2Fuel]
  | succ f ih =>
    intro n b hn
    simp only [log2Fuel]
    split
    · rename_i h2
      cases b with
      | zero => omega
      | succ b =>
        have : n / 2 < 2 ^ (b + 1) := by
          rw [Nat.div_lt_iff_lt_mul (by norm_num)]
          calc n < 2 ^ (b + 1 + 1) := hn
            _ = 2 ^ (b + 1) * 2 := by ring
        have := ih (n / 2) b this
        omega
    · omega

theorem roundHalfEven_natCast (n : ℕ) : roundHalfEven (n : ℚ) = n := by
  simp [roundHalfEven]

theorem roundMag_natCast (k : ℕ) (hk0 : 0 < k) (hk : k < 2 ^ 53) :
    roundMag (k : ℚ) = some (k : ℚ) := by
  have h1 : (1 : ℚ) ≤ k := by exact_mod_cast hk0
  have hfl : floorLog2 (k : ℚ) = (natLog2 k : ℤ) := by
    simp [floorLog2, h1]
  have hle : natLog2 k ≤ 52 := log2Fuel_le k k 52 hk
  obtain ⟨m, hm⟩ : ∃ m : ℕ, max (floorLog2 (k : ℚ)) (-1022) - 52 = -(m : ℤ) := by
    refine ⟨52 - natLog2 k, ?_⟩
    rw [hfl]
    have : max (natLog2 k : ℤ) (-1022) = natLog2 k := by
      apply max_eq_left
      omega
    rw [this]
    omega
  unfold roundMag
  simp only [hm]
  have hq : (k : ℚ) / 2 ^ (-(m : ℤ)) = ((k * 2 ^ m : ℕ) : ℚ) := by
    rw [zpow_neg, zpow_natCast]
    push_cast
    field_simp
  rw [hq, roundHalfEven_natCast]
  have hr : ((k * 2 ^ m : ℕ) : ℚ) * 2 ^ (-(m : ℤ)) = k := by
    rw [zpow_neg, zpow_natCast]
    push_cast
    field_simp
  rw [hr]
  have hlt : ¬ ((2 : ℚ) ^ 1024 ≤ k) := by
    rw [not_le]
    have : (k : ℚ) < 2 ^ 53 := by exact_mod_cast hk
    calc (k : ℚ) < 2 ^ 53 := this
      _ ≤ 2 ^ 1024 := by norm_num
  rw [if_neg hlt]

theorem ofRat_natCast (k : ℕ) (hk : k < 2 ^ 53) : ofRat (k : ℚ) = fin k := by
  unfold ofRat ofSignMag
  have hneg : decide ((k : ℚ) < 0) = false := by simp
  rw [hneg, abs_of_nonneg (Nat.cast_nonneg k)]
  rcases Nat.eq_zero_or_pos k with h0 | hpos
  · subst h0; simp
  · have hne : (k : ℚ) ≠ 0 := by exact_mod_cast (Nat.pos_iff_ne_zero.mp hpos)
    rw [if_neg hne, roundMag_natCast k hpos hk]
    simp [hne]

end JSNumber

namespace JSNumber

theorem add_natCast (a k : ℕ) (h : a + k < 2 ^ 53) :
    (fin (a : ℚ)).add (fin (k : ℚ)) = fin ((a + k : ℕ) : ℚ) := by
  simp only [add]
  have hc : (a : ℚ) + (k : ℚ) = ((a + k : ℕ) : ℚ) := by push_cast; rfl
  rw [hc]
  split
  · rename_i h0; rw [h0]
  · exact ofRat_natCast (a + k) h

theorem foldl_add_natCast (ks : List ℕ) :
    ∀ a : ℕ, a + ks.sum < 2 ^ 53 →
      (ks.map fun (k : ℕ) => fin (k : ℚ)).foldl add (fin (a : ℚ)) = fin ((a + ks.sum : ℕ) : ℚ) := by
  induction ks with
  | nil => intro a _; simp
  | cons k ks ih =>
    intro a h
    simp only [List.sum_cons] at h
    simp only [List.map_cons, List.foldl_cons, List.sum_cons]
    rw [add_natCast a k (by omega), ih (a + k) (by omega)]
    congr 2
    omega

theorem div_natCast (s n : ℕ) (hn : n ≠ 0) :
    (fin (s : ℚ)).div (ofNat n) = ofRat ((s : ℚ) / (n : ℚ)) := by
  have hn3 : (n : ℚ) ≠ 0 := by exact_mod_cast hn
  have h1 : decide ((s : ℚ) < 0) = false := by simp
  have h2 : decide ((n : ℚ) < 0) = false := by simp
  have h3 : decide ((s : ℚ) / (n : ℚ) < 0) = false := by
    simp only [decide_eq_false_iff_not, not_lt]
    positivity
  simp only [div, ofNat, toRat, isNeg, ofRat]
  rw [if_neg hn3, h1, h2, h3, abs_div]
  rfl

end JSNumber

theorem averageOf_natCast (ks : List ℕ) (hne : ks ≠ []) (hsum : ks.sum < 2 ^ 53) :
    averageOf (ks.map fun (k : ℕ) => JSNumber.fin (k : ℚ)) =
      JSNumber.ofRat ((ks.sum : ℚ) / (ks.length : ℚ)) := by
  have hl : ks.length ≠ 0 := by simpa using hne
  have hfold := JSNumber.foldl_add_natCast ks 0 (by simpa using hsum)
  simp only [Nat.cast_zero, zero_add] at hfold
  unfold averageOf
  simp only [List.length_map, ne_eq, hl, not_false_eq_true, if_true]
  have hf : (fun (sum price : JSNumber) => sum.add price) = JSNumber.add := rfl
  rw [hf, hfold]
  exact JSNumber.div_natCast ks.sum ks.length hl

theorem calculateAveragePrices_ok (lower : JSString → JSString) (treeData : JSObject)
    (properties : List PropertyRecord) (tallStreets shortStreets : List JSString)
    (htall : extractStreetNames treeData "tall".toList = Except.ok tallStreets)
    (hshort : extractStreetNames treeData "short".toList = Except.ok shortStreets) :
    calculateAveragePrices lower treeData (Except.ok properties) =
      Except.ok (averagePrices lower tallStreets shortStreets properties) := by
  unfold calculateAveragePrices
  rw [htall, hshort]
  rfl

theorem calculateAveragePrices_error_tall (lower : JSString → JSString) (treeData : JSObject)
    (properties : Except JSString (List PropertyRecord)) (msg : JSString)
    (htall : extractStreetNames treeData "tall".toList = Except.error msg) :
    calculateAveragePrices lower treeData properties = Except.error msg := by
  unfold calculateAveragePrices
  rw [htall]
  rfl

/-- The end-to-end scenario of `tests/unit/priceCalculator.test.js`. -/
theorem calculateAveragePrices_scenario :
    calculateAveragePrices asciiLower
      [("tall".toList, JSValue.obj [("road".toList, JSValue.obj
          [("charlemont".toList, JSValue.obj
            [("charlemont".toList, JSValue.num (JSNumber.fin 20))])])]),
       ("short".toList, JSValue.obj
          [("park".toList, JSValue.obj [("the".toList, JSValue.obj
            [("the park".toList, JSValue.num (JSNumber.fin 10))])]),
           ("street".toList, JSValue.obj [("malahide".toList, JSValue.obj
            [("malahide road".toList, JSValue.num (JSNumber.fin 10))])])])]
      (Except.ok
        [⟨"charlemont".toList, JSNumber.fin 557000⟩, ⟨"the park".toList, JSNumber.fin 79500⟩,
         ⟨"malahide road".toList, JSNumber.fin 140000⟩,
         ⟨"charlemont".toList, JSNumber.fin 30000⟩]) =
      Except.ok { tallAverage := JSNumber.fin 293500, shortAverage := JSNumber.fin 109750 } := by
  decide!

/-! ## Claims on `calculateAveragePrices` -/

/-- C1: when at least one record is selected for a category, the average
returned for that category is the mean of the prices of all the selected
records, the sum (added left to right) divided by their number, every record
counting even when it shares its street with another one.  When the selected
prices are the natural numbers `ks` with a sum below `2 ^ 53`, that value is
the exact quotient `ks.sum / ks.length` rounded once to a Number. -/
theorem averagePrices_mean (lower : JSString → JSString) (tallStreets shortStreets : List JSString)
    (properties : List PropertyRecord) :
    (selectedRecords lower tallStreets properties ≠ [] →
      (averagePrices lower tallStreets shortStreets properties).tallAverage =
        meanPrice (selectedRecords lower tallStreets properties)) ∧
    (selectedRecords lower shortStreets properties ≠ [] →
      (averagePrices lower tallStreets shortStreets properties).shortAverage =
        meanPrice (selectedRecords lower shortStreets properties)) ∧
    (∀ ks : List ℕ, ks ≠ [] → ks.sum < 2 ^ 53 →
      ((selectedRecords lower tallStreets properties).map fun prop => prop.price) =
          ks.map (fun (k : ℕ) => JSNumber.fin (k : ℚ)) →
      (averagePrices lower tallStreets shortStreets properties).tallAverage =
        JSNumber.ofRat ((ks.sum : ℚ) / (ks.length : ℚ))) ∧
    (∀ ks : List ℕ, ks ≠ [] → ks.sum < 2 ^ 53 →
      ((selectedRecords lower shortStreets properties).map fun prop => prop.price) =
          ks.map (fun (k : ℕ) => JSNumber.fin (k : ℚ)) →
      (averagePrices lower tallStreets shortStreets properties).shortAverage =
        JSNumber.ofRat ((ks.sum : ℚ) / (ks.length : ℚ))) := by
  refine ⟨?_, ?_, ?_, ?_⟩
  · intro h
    simp only [averagePrices, matchedPrices_eq]
    exact averageOf_map_price _ h
  · intro h
    simp only [averagePrices, matchedPrices_eq]
    exact averageOf_map_price _ h
  · intro ks hne hsum hks
    simp only [averagePrices, matchedPrices_eq]
    rw [hks]
    exact averageOf_natCast ks hne hsum
  · intro ks hne hsum hks
    simp only [averagePrices, matchedPrices_eq]
    rw [hks]
    exact averageOf_natCast ks hne hsum

/-- Witness of C1: the scenario of the test "calculates correct averages with
duplicates": the two records of street charlemont both count. -/
theorem averagePrices_mean_witness :
    (averagePrices asciiLower ["charlemont".toList] ["the park".toList, "malahide road".toList]
        [⟨"charlemont".toList, JSNumber.fin 557000⟩, ⟨"the park".toList, JSNumber.fin 79500⟩,
         ⟨"malahide road".toList, JSNumber.fin 140000⟩,
         ⟨"charlemont".toList, JSNumber.fin 30000⟩]).tallAverage = JSNumber.fin 293500 ∧
    (averagePrices asciiLower ["charlemont".toList] ["the park".toList, "malahide road".toList]
        [⟨"charlemont".toList, JSNumber.fin 557000⟩, ⟨"the park".toList, JSNumber.fin 79500⟩,
         ⟨"malahide road".toList, JSNumber.fin 140000⟩,
         ⟨"charlemont".toList, JSNumber.fin 30000⟩]).shortAverage = JSNumber.fin 109750 :=
  ⟨((averagePrices_mean asciiLower ["charlemont".toList]
        ["the park".toList, "malahide road".toList]
        [⟨"charlemont".toList, JSNumber.fin 557000⟩, ⟨"the park".toList, JSNumber.fin 79500⟩,
         ⟨"malahide road".toList, JSNumber.fin 140000⟩,
         ⟨"charlemont".toList, JSNumber.fin 30000⟩]).1 (by decide!)).trans (by decide!),
   ((averagePrices_mean asciiLower ["charlemont".toList]
        ["the park".toList, "malahide road".toList]
        [⟨"charlemont".toList, JSNumber.fin 557000⟩, ⟨"the park".toList, JSNumber.fin 79500⟩,
         ⟨"malahide road".toList, JSNumber.fin 140000⟩,
         ⟨"charlemont".toList, JSNumber.fin 30000⟩]).2.2.2 [79500, 140000] (by decide)
        (by decide) (by decide!)).trans (by decide!)⟩

/-- C2: when no record is selected for a category, the average returned for
that category is exactly `0`; in particular both averages are `0` when both
street lists are empty, and when there is no record. -/
theorem averagePrices_zero (lower : JSString → JSString) (tallStreets shortStreets : List JSString)
    (properties : List PropertyRecord) :
    (selectedRecords lower tallStreets properties = [] →
      (averagePrices lower tallStreets shortStreets properties).tallAverage = JSNumber.fin 0) ∧
    (selectedRecords lower shortStreets properties = [] →
      (averagePrices lower tallStreets shortStreets properties).shortAverage = JSNumber.fin 0) ∧
    selectedRecords lower [] properties = [] ∧
    selectedRecords lower tallStreets [] = [] ∧
    averagePrices lower [] [] properties =
      { tallAverage := JSNumber.fin 0, shortAverage := JSNumber.fin 0 } ∧
    averagePrices lower tallStreets shortStreets [] =
      { tallAverage := JSNumber.fin 0, shortAverage := JSNumber.fin 0 } := by
  have hnil : ∀ ps : List PropertyRecord, selectedRecords lower [] ps = [] := by
    intro ps
    simp [selectedRecords]
  refine ⟨?_, ?_, hnil properties, rfl, ?_, ?_⟩
  · intro h
    simp [averagePrices, matchedPrices_eq, h, averageOf_nil]
  · intro h
    simp [averagePrices, matchedPrices_eq, h, averageOf_nil]
  · simp [averagePrices, matchedPrices_eq, hnil, averageOf_nil]
  · simp [averagePrices, matchedPrices, averageOf_nil]

/-- Witness of C2: the scenario of the test "returns zero averages for no
matches", a single record whose street is in neither list. -/
theorem averagePrices_zero_witness :
    (averagePrices asciiLower ["charlemont".toList] ["the park".toList, "malahide road".toList]
        [⟨"unknown".toList, JSNumber.fin 100000⟩]).tallAverage = JSNumber.fin 0 ∧
    (averagePrices asciiLower ["charlemont".toList] ["the park".toList, "malahide road".toList]
        [⟨"unknown".toList, JSNumber.fin 100000⟩]).shortAverage = JSNumber.fin 0 :=
  ⟨(averagePrices_zero asciiLower ["charlemont".toList]
        ["the park".toList, "malahide road".toList]
        [⟨"unknown".toList, JSNumber.fin 100000⟩]).1 (by decide!),
   (averagePrices_zero asciiLower ["charlemont".toList]
        ["the park".toList, "malahide road".toList]
        [⟨"unknown".toList, JSNumber.fin 100000⟩]).2.1 (by decide!)⟩

/-- C3: for each category the selected records are exactly the records whose
lower-cased street equals the lower-cased form of some entry of that
category's list, nothing else being normalised; the average of a category is
a function of its own list only, so the other list has no influence and a
record whose street is in both lists is selected for both.  With ASCII
letters, street CHARLEMONT is selected by an entry charlemont, and a street
with a trailing blank is not. -/
theorem selection_caseInsensitive (lower : JSString → JSString)
    (tallStreets shortStreets otherStreets : List JSString)
    (properties : List PropertyRecord) (prop : PropertyRecord) :
    (matchesStreet lower tallStreets prop = true ↔
      ∃ s ∈ tallStreets, lower s = lower prop.street) ∧
    (prop ∈ properties.filter (matchesStreet lower tallStreets) ↔
      prop ∈ properties ∧ ∃ s ∈ tallStreets, lower s = lower prop.street) ∧
    matchedPrices lower tallStreets properties =
      ((selectedRecords lower tallStreets properties).map fun p => p.price) ∧
    (averagePrices lower tallStreets shortStreets properties).tallAverage =
      (averagePrices lower tallStreets otherStreets properties).tallAverage ∧
    (averagePrices lower tallStreets shortStreets properties).shortAverage =
      (averagePrices lower otherStreets shortStreets properties).shortAverage ∧
    (averagePrices lower tallStreets shortStreets properties).tallAverage =
      averageOf (matchedPrices lower tallStreets properties) ∧
    (averagePrices lower tallStreets shortStreets properties).shortAverage =
      averageOf (matchedPrices lower shortStreets properties) ∧
    matchesStreet asciiLower ["charlemont".toList]
      { street := "CHARLEMONT".toList, price := prop.price } = true ∧
    matchesStreet asciiLower ["charlemont".toList]
      { street := "charlemont ".toList, price := prop.price } = false := by
  refine ⟨matchesStreet_iff _ _ _, ?_, matchedPrices_eq _ _ _, rfl, rfl, rfl, rfl, ?_, ?_⟩
  · rw [List.mem_filter, matchesStreet_iff]
  · simp only [matchesStreet]; decide
  · simp only [matchesStreet]; decide

/-- C4: for valid property records (every price finite and greater than `0`)
each of the two averages is not NaN and is not below zero: it is `0` or it is
greater than `0`. -/
theorem averagePrices_nonNeg (lower : JSString → JSString)
    (tallStreets shortStreets : List JSString) (properties : List PropertyRecord)
    (h : ∀ prop ∈ properties, prop.Valid) :
    ((averagePrices lower tallStreets shortStreets properties).tallAverage.isNaN = false ∧
      (averagePrices lower tallStreets shortStreets properties).tallAverage.lt
        (JSNumber.fin 0) = false ∧
      ((averagePrices lower tallStreets shortStreets properties).tallAverage = JSNumber.fin 0 ∨
        (JSNumber.fin 0).lt
          (averagePrices lower tallStreets shortStreets properties).tallAverage = true)) ∧
    ((averagePrices lower tallStreets shortStreets properties).shortAverage.isNaN = false ∧
      (averagePrices lower tallStreets shortStreets properties).shortAverage.lt
        (JSNumber.fin 0) = false ∧
      ((averagePrices lower tallStreets shortStreets properties).shortAverage = JSNumber.fin 0 ∨
        (JSNumber.fin 0).lt
          (averagePrices lower tallStreets shortStreets properties).shortAverage = true)) :=
  ⟨(averageOf_nonNeg _ (matchedPrices_nonNeg lower tallStreets properties h)).spec,
   (averageOf_nonNeg _ (matchedPrices_nonNeg lower shortStreets properties h)).spec⟩

/-- Witness of C4: three valid records, one of them on a tall street and none
on a short street. -/
theorem averagePrices_nonNeg_witness :
    (averagePrices asciiLower ["charlemont".toList] ["the park".toList]
        [⟨"charlemont".toList, JSNumber.fin (1 / 10)⟩, ⟨"x".toList, JSNumber.fin 7⟩,
         ⟨"CharleMont".toList, JSNumber.fin (2 / 10)⟩]).tallAverage.isNaN = false ∧
    (averagePrices asciiLower ["charlemont".toList] ["the park".toList]
        [⟨"charlemont".toList, JSNumber.fin (1 / 10)⟩, ⟨"x".toList, JSNumber.fin 7⟩,
         ⟨"CharleMont".toList, JSNumber.fin (2 / 10)⟩]).shortAverage.isNaN = false :=
  ⟨(averagePrices_nonNeg asciiLower ["charlemont".toList] ["the park".toList]
        [⟨"charlemont".toList, JSNumber.fin (1 / 10)⟩, ⟨"x".toList, JSNumber.fin 7⟩,
         ⟨"CharleMont".toList, JSNumber.fin (2 / 10)⟩]
        (by
          intro prop hprop
          simp only [List.mem_cons, List.mem_singleton, List.not_mem_nil, or_false] at hprop
          rcases hprop with rfl | rfl | rfl
          · exact ⟨1 / 10, rfl, by norm_num⟩
          · exact ⟨7, rfl, by norm_num⟩
          · exact ⟨2 / 10, rfl, by norm_num⟩)).1.1,
   (averagePrices_nonNeg asciiLower ["charlemont".toList] ["the park".toList]
        [⟨"charlemont".toList, JSNumber.fin (1 / 10)⟩, ⟨"x".toList, JSNumber.fin 7⟩,
         ⟨"CharleMont".toList, JSNumber.fin (2 / 10)⟩]
        (by
          intro prop hprop
          simp only [List.mem_cons, List.mem_singleton, List.not_mem_nil, or_false] at hprop
          rcases hprop with rfl | rfl | rfl
          · exact ⟨1 / 10, rfl, by norm_num⟩
          · exact ⟨7, rfl, by norm_num⟩
          · exact ⟨2 / 10, rfl, by norm_num⟩)).2.1⟩

/-! ## Lemmas on `traverse` -/

theorem traverseItems_eq (items : List JSValue) : ∀ i : ℕ,
    traverseItems i items =
      ((items.enumFrom i).map fun p => (indexKey p.1, p.2)).flatMap fun kv =>
        if kv.2.isObject then traverse kv.2 else if kv.2.isNumber then [kv.1] else [] := by
  induction items with
  | nil => intro i; simp [traverseItems]
  | cons v rest ih => intro i; simp [traverseItems, List.enumFrom, ih (i + 1)]

theorem traverseEntries_eq (entries : List (JSString × JSValue)) :
    traverseEntries entries =
      entries.flatMap fun kv =>
        if kv.2.isObject then traverse kv.2 else if kv.2.isNumber then [kv.1] else [] := by
  induction entries with
  | nil => simp [traverseEntries]
  | cons kv rest ih => obtain ⟨k, v⟩ := kv; simp [traverseEntries, ih]

/-- The body of `traverse` as written in the source: a loop over
`Object.entries(node)` pushing the walk of every object value and the key of
every number value. -/
theorem traverse_eq (node : JSValue) :
    traverse node =
      (objectEntries node).flatMap fun kv =>
        if kv.2.isObject then traverse kv.2 else if kv.2.isNumber then [kv.1] else [] := by
  cases node with
  | obj entries => simp only [traverse, objectEntries]; exact traverseEntries_eq entries
  | arr items => simp only [traverse, objectEntries, List.enum]; exact traverseItems_eq items 0
  | str s =>
    simp only [traverse, objectEntries]
    symm
    rw [List.flatMap_eq_nil_iff]
    intro kv hkv
    simp only [List.mem_map] at hkv
    obtain ⟨p, _, rfl⟩ := hkv
    simp [JSValue.isObject, JSValue.isNumber]
  | undefined => simp only [traverse, objectEntries]; rfl
  | null => simp only [traverse, objectEntries]; rfl
  | bool b => simp only [traverse, objectEntries]; rfl
  | num n => simp only [traverse, objectEntries]; rfl
  | fn => simp only [traverse, objectEntries]; rfl

theorem StreetEntry.toJSList_eq_map (es : List StreetEntry) :
    StreetEntry.toJSList es = es.map StreetEntry.toJS := by
  induction es with
  | nil => simp [StreetEntry.toJSList]
  | cons e rest ih => simp [StreetEntry.toJSList, ih]

theorem StreetEntry.walkList_eq_bind (es : List StreetEntry) :
    StreetEntry.walkList es = es.flatMap StreetEntry.walk := by
  induction es with
  | nil => simp [StreetEntry.walkList]
  | cons e rest ih => simp [StreetEntry.walkList, ih]

mutual
theorem StreetEntry.traverse_toJS : ∀ e : StreetEntry,
    (if e.toJS.2.isObject then traverse e.toJS.2
     else if e.toJS.2.isNumber then [e.toJS.1] else []) = e.walk
  | StreetEntry.street key height => by
    simp [StreetEntry.toJS, StreetEntry.walk, JSValue.isObject, JSValue.isNumber]
  | StreetEntry.other key value => by
    cases value <;>
      simp [StreetEntry.toJS, OtherValue.toJS, StreetEntry.walk, JSValue.isObject,
        JSValue.isNumber]
  | StreetEntry.group key children => by
    simp only [StreetEntry.toJS, StreetEntry.walk, JSValue.isObject, if_true, traverse]
    exact StreetEntry.traverseEntries_toJSList children
theorem StreetEntry.traverseEntries_toJSList : ∀ es : List StreetEntry,
    traverseEntries (StreetEntry.toJSList es) = StreetEntry.walkList es
  | [] => by simp [StreetEntry.toJSList, StreetEntry.walkList, traverseEntries]
  | e :: rest => by
    have h1 := StreetEntry.traverse_toJS e
    have h2 := StreetEntry.traverseEntries_toJSList rest
    rw [StreetEntry.toJSList, StreetEntry.walkList, ← h1, ← h2]
    cases hx : e.toJS with
    | mk k v => simp [traverseEntries]
end

mutual
theorem StreetEntry.length_walk : ∀ e : StreetEntry, e.walk.length = e.leaves
  | StreetEntry.street key height => by simp [StreetEntry.walk, StreetEntry.leaves]
  | StreetEntry.other key value => by simp [StreetEntry.walk, StreetEntry.leaves]
  | StreetEntry.group key children => by
    simp only [StreetEntry.walk, StreetEntry.leaves]
    exact StreetEntry.length_walkList children
theorem StreetEntry.length_walkList : ∀ es : List StreetEntry,
    (StreetEntry.walkList es).length = StreetEntry.leavesList es
  | [] => by simp [StreetEntry.walkList, StreetEntry.leavesList]
  | e :: rest => by
    simp only [StreetEntry.walkList, StreetEntry.leavesList, List.length_append]
    rw [StreetEntry.length_walk e, StreetEntry.length_walkList rest]
end

theorem isNestingEntries_representable : ∀ entries : List (JSString × JSValue),
    isNestingEntries entries = true → ∃ es : List StreetEntry, entries = StreetEntry.toJSList es
  | [], _ => ⟨[], rfl⟩
  | (key, value) :: rest, h => by
    simp only [isNestingEntries, Bool.and_eq_true, Bool.or_eq_true, Bool.not_eq_true'] at h
    obtain ⟨es, hes⟩ := isNestingEntries_representable rest h.2
    cases value with
    | undefined => exact ⟨StreetEntry.other key OtherValue.undefined :: es, by
        simp [StreetEntry.toJSList, StreetEntry.toJS, OtherValue.toJS, hes]⟩
    | null => exact ⟨StreetEntry.other key OtherValue.null :: es, by
        simp [StreetEntry.toJSList, StreetEntry.toJS, OtherValue.toJS, hes]⟩
    | bool b => exact ⟨StreetEntry.other key (OtherValue.bool b) :: es, by
        simp [StreetEntry.toJSList, StreetEntry.toJS, OtherValue.toJS, hes]⟩
    | num n => exact ⟨StreetEntry.street key n :: es, by
        simp [StreetEntry.toJSList, StreetEntry.toJS, hes]⟩
    | str s => exact ⟨StreetEntry.other key (OtherValue.str s) :: es, by
        simp [StreetEntry.toJSList, StreetEntry.toJS, OtherValue.toJS, hes]⟩
    | fn => exact ⟨StreetEntry.other key OtherValue.fn :: es, by
        simp [StreetEntry.toJSList, StreetEntry.toJS, OtherValue.toJS, hes]⟩
    | arr items => simp [JSValue.isObject, JSValue.isNesting] at h
    | obj children =>
      have hch : isNestingEntries children = true := by
        simpa [JSValue.isObject, JSValue.isNesting] using h.1
      obtain ⟨cs, hcs⟩ := isNestingEntries_representable children hch
      exact ⟨StreetEntry.group key cs :: es, by
        simp [StreetEntry.toJSList, StreetEntry.toJS, hes, hcs]⟩

theorem isNesting_representable (value : JSValue) (h : value.isNesting = true) :
    ∃ es : List StreetEntry, value = JSValue.obj (es.map StreetEntry.toJS) := by
  cases value with
  | obj entries =>
    simp only [JSValue.isNesting] at h
    obtain ⟨es, hes⟩ := isNestingEntries_representable entries h
    exact ⟨es, by rw [hes, StreetEntry.toJSList_eq_map]⟩
  | undefined => simp [JSValue.isNesting] at h
  | null => simp [JSValue.isNesting] at h
  | bool b => simp [JSValue.isNesting] at h
  | num n => simp [JSValue.isNesting] at h
  | str s => simp [JSValue.isNesting] at h
  | arr items => simp [JSValue.isNesting] at h
  | fn => simp [JSValue.isNesting] at h

mutual
theorem StreetEntry.isNesting_toJS : ∀ e : StreetEntry,
    (!e.toJS.2.isObject || e.toJS.2.isNesting) = true
  | StreetEntry.street key height => by simp [StreetEntry.toJS, JSValue.isObject]
  | StreetEntry.other key value => by
    cases value <;> simp [StreetEntry.toJS, OtherValue.toJS, JSValue.isObject]
  | StreetEntry.group key children => by
    simp only [StreetEntry.toJS, JSValue.isNesting, Bool.or_eq_true]
    exact Or.inr (StreetEntry.isNestingEntries_toJSList children)
theorem StreetEntry.isNestingEntries_toJSList : ∀ es : List StreetEntry,
    isNestingEntries (StreetEntry.toJSList es) = true
  | [] => by simp [StreetEntry.toJSList, isNestingEntries]
  | e :: rest => by
    have h1 := StreetEntry.isNesting_toJS e
    have h2 := StreetEntry.isNestingEntries_toJSList rest
    rw [StreetEntry.toJSList]
    cases hx : e.toJS with
    | mk k v =>
      rw [hx] at h1
      simp only [isNestingEntries, Bool.and_eq_true]
      exact ⟨h1, h2⟩
end

theorem StreetEntry.leavesList_eq_sum (es : List StreetEntry) :
    StreetEntry.leavesList es = (es.map StreetEntry.leaves).sum := by
  induction es with
  | nil => simp [StreetEntry.leavesList]
  | cons e rest ih => simp [StreetEntry.leavesList, ih]

theorem getProp_of_lookup {o : JSObject} {key : JSString} {v : JSValue}
    (h : o.lookup key = some v) : getProp o key = v := by
  simp [getProp, h]

mutual
theorem traverse_prune : ∀ v : JSValue, traverse (prune v) = traverse v
  | JSValue.obj entries => by
    simp only [prune, traverse]; exact traverseEntries_prune entries
  | JSValue.arr items => by
    simp only [prune, traverse]; exact traverseItems_prune items 0
  | JSValue.undefined => by simp [prune]
  | JSValue.null => by simp [prune]
  | JSValue.bool b => by simp [prune]
  | JSValue.num n => by simp [prune]
  | JSValue.str s => by simp [prune]
  | JSValue.fn => by simp [prune]
theorem traverseEntries_prune : ∀ entries : List (JSString × JSValue),
    traverseEntries (pruneEntries entries) = traverseEntries entries
  | [] => by simp [pruneEntries]
  | (key, value) :: rest => by
    have h1 := traverse_prune value
    have h2 := traverseEntries_prune rest
    cases value <;>
      simp_all [pruneEntries, traverseEntries, JSValue.isSkipped, JSValue.isObject,
        JSValue.isNumber, prune]
theorem traverseItems_prune : ∀ (items : List JSValue) (i : ℕ),
    traverseItems i (pruneItems items) = traverseItems i items
  | [], i => by simp [pruneItems]
  | value :: rest, i => by
    have h1 := traverse_prune value
    have h2 := traverseItems_prune rest (i + 1)
    cases value <;>
      simp_all [pruneItems, traverseItems, JSValue.isObject, JSValue.isNumber, prune]
end

theorem truthy_prune (v : JSValue) : (prune v).truthy = v.truthy := by
  cases v <;> simp [prune, JSValue.truthy]

theorem traverseEntries_append (pre post : List (JSString × JSValue)) :
    traverseEntries (pre ++ post) = traverseEntries pre ++ traverseEntries post := by
  simp [traverseEntries_eq]

theorem truthy_eq_false_iff (v : JSValue) :
    v.truthy = false ↔
      v = JSValue.undefined ∨ v = JSValue.null ∨ v = JSValue.bool false ∨
      v = JSValue.num JSNumber.nan ∨ v = JSValue.num (JSNumber.fin 0) ∨
      v = JSValue.num JSNumber.negZero ∨ v = JSValue.str [] := by
  cases v with
  | undefined => simp [JSValue.truthy]
  | null => simp [JSValue.truthy]
  | bool b => simp [JSValue.truthy]
  | num n => simp [JSValue.truthy]; tauto
  | str s => simp [JSValue.truthy]
  | arr items => simp [JSValue.truthy]
  | obj entries => simp [JSValue.truthy]
  | fn => simp [JSValue.truthy]

theorem extractStreetNames_of_truthy {treeData : JSObject} {category : JSString}
    (h : (getProp treeData category).truthy = true) :
    extractStreetNames treeData category = Except.ok (traverse (getProp treeData category)) := by
  simp [extractStreetNames, h]

theorem extractStreetNames_of_falsy {treeData : JSObject} {category : JSString}
    (h : (getProp treeData category).truthy = false) :
    extractStreetNames treeData category = Except.error (categoryNotFound category) := by
  simp [extractStreetNames, h]

/-! ## Claims on `extractStreetNames` -/

/-- C5, the defect: the name toString is not a key of the catalogue with the
single key tall, so by the documentation of the function ("throws if the
category is invalid, missing") the extraction must fail; yet it does not: the
property read finds the method inherited from `Object.prototype`, which is
truthy, and the walk of a function yields the empty list.  Likewise for
constructor and for the accessor `__proto__`. -/
theorem extractStreetNames_inherited_name :
    ownTruthy [("tall".toList, JSValue.obj [])] "toString".toList = false ∧
    extractStreetNames [("tall".toList, JSValue.obj [])] "toString".toList = Except.ok [] ∧
    ownTruthy [("tall".toList, JSValue.obj [])] "constructor".toList = false ∧
    extractStreetNames [("tall".toList, JSValue.obj [])] "constructor".toList = Except.ok [] ∧
    ownTruthy [("tall".toList, JSValue.obj [])] "__proto__".toList = false ∧
    extractStreetNames [("tall".toList, JSValue.obj [])] "__proto__".toList = Except.ok [] ∧
    ¬ (extractStreetNames [("tall".toList, JSValue.obj [])] "toString".toList =
          Except.error (categoryNotFound "toString".toList) ↔
        ownTruthy [("tall".toList, JSValue.obj [])] "toString".toList = false) := by
  decide

/-- What the test of line 17 does: the extraction fails, with the
category-not-found message, exactly when the property read
`treeData[category]` is falsy: the category is an own key whose value is
`undefined`, `null`, `false`, NaN, `0`, `-0` or the empty string, or it is
neither an own key nor a name inherited from `Object.prototype`.  An own key
with a truthy value gives the walk of its value. -/
theorem extractStreetNames_fails_iff (treeData : JSObject) (category : JSString) :
    (extractStreetNames treeData category = Except.error (categoryNotFound category) ↔
      (getProp treeData category).truthy = false) ∧
    ((getProp treeData category).truthy = false ↔
      ((∃ v, treeData.lookup category = some v ∧
          (v = JSValue.undefined ∨ v = JSValue.null ∨ v = JSValue.bool false ∨
           v = JSValue.num JSNumber.nan ∨ v = JSValue.num (JSNumber.fin 0) ∨
           v = JSValue.num JSNumber.negZero ∨ v = JSValue.str [])) ∨
       (treeData.lookup category = none ∧ category ≠ protoKey ∧
          category ∉ objectPrototypeMethods))) ∧
    ((getProp treeData category).truthy = true →
      extractStreetNames treeData category =
        Except.ok (traverse (getProp treeData category))) ∧
    (∀ v, treeData.lookup category = some v → v.truthy = true →
      extractStreetNames treeData category = Except.ok (traverse v)) ∧
    (treeData.lookup category = none →
      (category = protoKey ∨ category ∈ objectPrototypeMethods) →
      extractStreetNames treeData category = Except.ok []) ∧
    (ownTruthy treeData category = true → ∃ streets,
      extractStreetNames treeData category = Except.ok streets) := by
  refine ⟨?_, ?_, fun h => extractStreetNames_of_truthy h, ?_, ?_, ?_⟩
  · constructor
    · intro h
      by_contra hne
      rw [Bool.not_eq_false] at hne
      rw [extractStreetNames_of_truthy hne] at h
      exact Except.noConfusion h
    · exact fun h => extractStreetNames_of_falsy h
  · cases hl : treeData.lookup category with
    | some v =>
      rw [getProp_of_lookup hl, truthy_eq_false_iff]
      simp
    | none =>
      by_cases h1 : category = protoKey
      · subst h1
        simp only [getProp, hl, if_true, JSValue.truthy]
        simp
      · by_cases h2 : category ∈ objectPrototypeMethods
        · simp only [getProp, hl, h1, h2, if_true, if_false, JSValue.truthy]
          simp
        · simp only [getProp, hl, h1, h2, if_false, JSValue.truthy]
          simp [h1, h2]
  · intro v hl hv
    have := getProp_of_lookup hl
    rw [← this] at hv
    rw [extractStreetNames_of_truthy hv, this]
  · intro hl hin
    by_cases h1 : category = protoKey
    · subst h1
      have hg : getProp treeData protoKey = JSValue.obj [] := by
        simp only [getProp, hl, if_true]
      rw [extractStreetNames_of_truthy (by rw [hg]; rfl), hg]
      rfl
    · have h2 : category ∈ objectPrototypeMethods := by
        rcases hin with h | h
        · exact absurd h h1
        · exact h
      have hg : getProp treeData category = JSValue.fn := by
        simp only [getProp, hl, h1, h2, if_true, if_false]
      rw [extractStreetNames_of_truthy (by rw [hg]; rfl), hg]
      rfl
  · intro h
    unfold ownTruthy at h
    cases hl : treeData.lookup category with
    | some v =>
      rw [hl] at h
      have hg := getProp_of_lookup hl
      exact ⟨_, extractStreetNames_of_truthy (by rw [hg]; exact h)⟩
    | none => rw [hl] at h; exact absurd h (by simp)

/-- The scenario of the test "throws error for invalid category": the
catalogue with the single key tall and the category invalid. -/
theorem extractStreetNames_fails_iff_witness :
    extractStreetNames [("tall".toList, JSValue.obj [])] "invalid".toList =
      Except.error "Category 'invalid' not found in tree data".toList ∧
    extractStreetNames [("tall".toList, JSValue.obj [])] "tall".toList = Except.ok [] :=
  ⟨((extractStreetNames_fails_iff [("tall".toList, JSValue.obj [])] "invalid".toList).1.2
      (by decide)).trans (by decide),
   ((extractStreetNames_fails_iff [("tall".toList, JSValue.obj [])] "tall".toList).2.2.1
      (by decide)).trans (by decide)⟩

/-- C6: when the category subtree is a finite nesting of mappings, that is an
object with no array at any depth, the extraction returns exactly the
depth-first walk in key order: a nested mapping contributes the walk of its
subtree, a numeric value (zero included) contributes its key, a value of any
other kind contributes nothing, and the result is the concatenation of the
contributions, unsorted and with repetitions kept, so that its length is the
number of numeric leaves.  The nestings of mappings are exactly the values of
the lists of specification entries. -/
theorem extractStreetNames_walk (treeData : JSObject) (category : JSString)
    (subtree : List StreetEntry)
    (h : treeData.lookup category = some (JSValue.obj (subtree.map StreetEntry.toJS))) :
    extractStreetNames treeData category = Except.ok (StreetEntry.walkList subtree) ∧
    StreetEntry.walkList subtree = subtree.flatMap StreetEntry.walk ∧
    (∀ key height, (StreetEntry.street key height).walk = [key]) ∧
    (∀ key children, (StreetEntry.group key children).walk =
      children.flatMap StreetEntry.walk) ∧
    (StreetEntry.walkList subtree).length = StreetEntry.leavesList subtree ∧
    (∀ key value, (StreetEntry.other key value).walk = []) ∧
    StreetEntry.leavesList subtree = (subtree.map StreetEntry.leaves).sum ∧
    (∀ key height, (StreetEntry.street key height).leaves = 1) ∧
    (∀ key value, (StreetEntry.other key value).leaves = 0) ∧
    (∀ key children, (StreetEntry.group key children).leaves =
      (children.map StreetEntry.leaves).sum) ∧
    (JSValue.obj (subtree.map StreetEntry.toJS)).isNesting = true ∧
    (∀ value : JSValue, value.isNesting = true → treeData.lookup category = some value →
      ∃ entries : List StreetEntry, value = JSValue.obj (entries.map StreetEntry.toJS) ∧
        extractStreetNames treeData category = Except.ok (StreetEntry.walkList entries) ∧
        (StreetEntry.walkList entries).length = StreetEntry.leavesList entries) := by
  have main : ∀ entries : List StreetEntry,
      treeData.lookup category = some (JSValue.obj (entries.map StreetEntry.toJS)) →
      extractStreetNames treeData category = Except.ok (StreetEntry.walkList entries) := by
    intro entries hl
    rw [← StreetEntry.toJSList_eq_map] at hl
    have hg := getProp_of_lookup hl
    rw [extractStreetNames_of_truthy (by rw [hg]; rfl), hg, traverse,
      StreetEntry.traverseEntries_toJSList]
  refine ⟨main subtree h, StreetEntry.walkList_eq_bind subtree, fun _ _ => rfl, ?_,
    StreetEntry.length_walkList subtree, fun _ _ => rfl,
    StreetEntry.leavesList_eq_sum subtree, fun _ _ => rfl, fun _ _ => rfl, ?_, ?_, ?_⟩
  · intro key children
    rw [StreetEntry.walk, StreetEntry.walkList_eq_bind]
  · intro key children
    rw [StreetEntry.leaves, StreetEntry.leavesList_eq_sum]
  · rw [← StreetEntry.toJSList_eq_map, JSValue.isNesting]
    exact StreetEntry.isNestingEntries_toJSList subtree
  · intro value hnest hl
    obtain ⟨entries, rfl⟩ := isNesting_representable value hnest
    exact ⟨entries, rfl, main entries hl, StreetEntry.length_walkList entries⟩

/-- Witness of C6: the scenarios of the tests "extracts street names from tall
category" and "extracts street names from short category" (a leaf of value
zero), and a mapping with a numeric leaf beside a `null`, a string and a
boolean value, whose single numeric leaf gives a list of length one. -/
theorem extractStreetNames_walk_witness :
    extractStreetNames
      [("tall".toList, JSValue.obj [("road".toList, JSValue.obj
        [("adelaide".toList, JSValue.obj [("adelaide road".toList, JSValue.num (JSNumber.fin 25))]),
         ("beaumont".toList, JSValue.obj
           [("beaumont road".toList, JSValue.num (JSNumber.fin 20))])])])]
      "tall".toList = Except.ok ["adelaide road".toList, "beaumont road".toList] ∧
    extractStreetNames
      [("short".toList, JSValue.obj [("drive".toList, JSValue.obj
        [("abbey".toList, JSValue.obj [("abbey drive".toList, JSValue.num (JSNumber.fin 0))])])])]
      "short".toList = Except.ok ["abbey drive".toList] ∧
    extractStreetNames
      [("tall".toList, JSValue.obj [("road".toList, JSValue.obj
        [("invalid".toList, JSValue.null),
         ("adelaide".toList, JSValue.obj [("adelaide road".toList, JSValue.num (JSNumber.fin 25))]),
         ("note".toList, JSValue.str "not a number".toList),
         ("flag".toList, JSValue.bool true)])])]
      "tall".toList = Except.ok ["adelaide road".toList] ∧
    StreetEntry.leavesList
      [StreetEntry.group "road".toList
        [StreetEntry.other "invalid".toList OtherValue.null,
         StreetEntry.group "adelaide".toList
           [StreetEntry.street "adelaide road".toList (JSNumber.fin 25)],
         StreetEntry.other "note".toList (OtherValue.str "not a number".toList),
         StreetEntry.other "flag".toList (OtherValue.bool true)]] = 1 :=
  ⟨((extractStreetNames_walk
      [("tall".toList, JSValue.obj [("road".toList, JSValue.obj
        [("adelaide".toList, JSValue.obj [("adelaide road".toList, JSValue.num (JSNumber.fin 25))]),
         ("beaumont".toList, JSValue.obj
           [("beaumont road".toList, JSValue.num (JSNumber.fin 20))])])])]
      "tall".toList
      [StreetEntry.group "road".toList
        [StreetEntry.group "adelaide".toList
           [StreetEntry.street "adelaide road".toList (JSNumber.fin 25)],
         StreetEntry.group "beaumont".toList
           [StreetEntry.street "beaumont road".toList (JSNumber.fin 20)]]]
      rfl).1).trans (by decide!),
   ((extractStreetNames_walk
      [("short".toList, JSValue.obj [("drive".toList, JSValue.obj
        [("abbey".toList, JSValue.obj [("abbey drive".toList, JSValue.num (JSNumber.fin 0))])])])]
      "short".toList
      [StreetEntry.group "drive".toList
        [StreetEntry.group "abbey".toList
           [StreetEntry.street "abbey drive".toList (JSNumber.fin 0)]]]
      rfl).1).trans (by decide!),
   ((extractStreetNames_walk
      [("tall".toList, JSValue.obj [("road".toList, JSValue.obj
        [("invalid".toList, JSValue.null),
         ("adelaide".toList, JSValue.obj [("adelaide road".toList, JSValue.num (JSNumber.fin 25))]),
         ("note".toList, JSValue.str "not a number".toList),
         ("flag".toList, JSValue.bool true)])])]
      "tall".toList
      [StreetEntry.group "road".toList
        [StreetEntry.other "invalid".toList OtherValue.null,
         StreetEntry.group "adelaide".toList
           [StreetEntry.street "adelaide road".toList (JSNumber.fin 25)],
         StreetEntry.other "note".toList (OtherValue.str "not a number".toList),
         StreetEntry.other "flag".toList (OtherValue.bool true)]]
      rfl).1).trans (by decide!),
   by decide⟩

/-- C7, counterexample: an entry whose value is an array is not skipped.  The
array is walked like a mapping whose keys are its indices, so the entry road
with the array value `[25]` contributes the name 0, while the same subtree
without that entry yields no name. -/
theorem extractStreetNames_array_counterexample :
    extractStreetNames
      [("tall".toList, JSValue.obj [("road".toList, JSValue.arr [JSValue.num (JSNumber.fin 25)])])]
      "tall".toList = Except.ok ["0".toList] ∧
    extractStreetNames [("tall".toList, JSValue.obj [])] "tall".toList = Except.ok [] ∧
    extractStreetNames
      [("tall".toList, JSValue.obj [("road".toList, JSValue.arr [JSValue.num (JSNumber.fin 25)])])]
      "tall".toList ≠
    extractStreetNames [("tall".toList, JSValue.obj [])] "tall".toList := by
  decide!

/-- C7, amended: an entry of a mapping whose value is neither an object, an
array nor a number (a string, a boolean, `null`, `undefined`, a function) is
skipped: it contributes no street name, and the result equals the result for
the same subtree with all such entries removed from every mapping.  An array
is not skipped but walked under its index keys.  The two test scenarios, with
`invalid: null` and with a string value, give the single name adelaide road. -/
theorem extractStreetNames_skips (treeData : JSObject) (category : JSString) (subtree : JSValue)
    (pre post : List (JSString × JSValue)) (key : JSString) (value : JSValue) :
    extractStreetNames ((category, prune subtree) :: treeData) category =
      extractStreetNames ((category, subtree) :: treeData) category ∧
    traverse (prune subtree) = traverse subtree ∧
    (value.isObject = false → value.isNumber = false →
      traverse (JSValue.obj (pre ++ (key, value) :: post)) = traverse (JSValue.obj (pre ++ post)) ∧
      extractStreetNames ((category, JSValue.obj (pre ++ (key, value) :: post)) :: treeData)
          category =
        extractStreetNames ((category, JSValue.obj (pre ++ post)) :: treeData) category) ∧
    (∀ s, (JSValue.str s).isSkipped = true) ∧ (∀ b, (JSValue.bool b).isSkipped = true) ∧
    JSValue.null.isSkipped = true ∧
    (∀ items, (JSValue.arr items).isSkipped = false) ∧
    extractStreetNames
      [("tall".toList, JSValue.obj [("road".toList, JSValue.obj
        [("adelaide".toList, JSValue.obj [("adelaide road".toList, JSValue.num (JSNumber.fin 25))]),
         ("invalid".toList, JSValue.null)])])]
      "tall".toList = Except.ok ["adelaide road".toList] ∧
    extractStreetNames
      [("tall".toList, JSValue.obj [("road".toList, JSValue.obj
        [("adelaide".toList, JSValue.obj [("adelaide road".toList, JSValue.num (JSNumber.fin 25))]),
         ("invalid".toList, JSValue.str "not a number".toList)])])]
      "tall".toList = Except.ok ["adelaide road".toList] := by
  have hlook : ∀ v : JSValue, getProp ((category, v) :: treeData) category = v := by
    intro v
    simp [getProp, List.lookup]
  have hskip : value.isObject = false → value.isNumber = false →
      traverse (JSValue.obj (pre ++ (key, value) :: post)) =
        traverse (JSValue.obj (pre ++ post)) := by
    intro h1 h2
    simp only [traverse, traverseEntries_append, traverseEntries, h1, h2]
    simp
  refine ⟨?_, traverse_prune subtree, ?_, fun _ => rfl, fun _ => rfl, rfl, fun _ => rfl,
    by decide!, by decide!⟩
  · simp only [extractStreetNames, hlook, truthy_prune, traverse_prune]
  · intro h1 h2
    refine ⟨hskip h1 h2, ?_⟩
    simp only [extractStreetNames, hlook, hskip h1 h2]
    rfl

/-- Witness of C7: removing the entry `invalid: null` from the mapping of
the test "handles null values in tree data" leaves the walk unchanged. -/
theorem extractStreetNames_skips_witness :
    traverse (JSValue.obj ([("adelaide".toList,
        JSValue.obj [("adelaide road".toList, JSValue.num (JSNumber.fin 25))])] ++
        ("invalid".toList, JSValue.null) :: [])) =
      traverse (JSValue.obj ([("adelaide".toList,
        JSValue.obj [("adelaide road".toList, JSValue.num (JSNumber.fin 25))])] ++ [])) :=
  ((extractStreetNames_skips [] "tall".toList JSValue.null
      [("adelaide".toList, JSValue.obj [("adelaide road".toList, JSValue.num (JSNumber.fin 25))])]
      [] "invalid".toList JSValue.null).2.2.1 rfl rfl).1

/-! ## Lemmas on `parsePrice` -/

theorem cleanPrice_eq (s : JSString) : cleanPrice s = trim (s.filter isKept) := by
  unfold cleanPrice
  rw [List.filter_filter]
  congr 1
  apply List.filter_congr
  intro c _
  simp only [isKept, isCurrencyMarker, Bool.not_or, Bool.and_comm]

theorem filter_isKept_idem (s : JSString) : (s.filter isKept).filter isKept = s.filter isKept := by
  rw [List.filter_filter]
  simp

theorem isWhiteSpace_isKept {c : Char} (h : isWhiteSpace c = true) : isKept c = true := by
  have h1 : c ≠ '€' := by rintro rfl; revert h; decide
  have h2 : c ≠ Char.ofNat 0xFFFD := by rintro rfl; revert h; decide
  have h3 : c ≠ ',' := by rintro rfl; revert h; decide
  simp [isKept, isCurrencyMarker, h1, h2, h3]

theorem isDecimalDigit_isKept {c : Char} (h : isDecimalDigit c = true) : isKept c = true := by
  have h1 : c ≠ '€' := by rintro rfl; revert h; decide
  have h2 : c ≠ Char.ofNat 0xFFFD := by rintro rfl; revert h; decide
  have h3 : c ≠ ',' := by rintro rfl; revert h; decide
  simp [isKept, isCurrencyMarker, h1, h2, h3]

theorem isDecimalDigit_not_isWhiteSpace {c : Char} (h : isDecimalDigit c = true) :
    isWhiteSpace c = false := by
  simp only [isDecimalDigit, Bool.and_eq_true, decide_eq_true_eq] at h
  simp only [isWhiteSpace, decide_eq_false_iff_not, List.mem_cons, List.mem_singleton,
    List.not_mem_nil, or_false]
  omega

theorem rdropWhile_append_of_pos (core w2 : List Char)
    (hw2 : ∀ c ∈ w2, isWhiteSpace c = true) :
    (core ++ w2).rdropWhile isWhiteSpace = core.rdropWhile isWhiteSpace := by
  induction w2 using List.reverseRecOn with
  | nil => simp
  | append_singleton w c ih =>
    rw [← List.append_assoc, List.rdropWhile_concat_pos _ _ _ (hw2 c (by simp))]
    exact ih (fun d hd => hw2 d (by simp [hd]))

theorem trim_of_ends (w1 core w2 : List Char) (hw1 : ∀ c ∈ w1, isWhiteSpace c = true)
    (hw2 : ∀ c ∈ w2, isWhiteSpace c = true) (hne : core ≠ [])
    (hhead : isWhiteSpace (core.head hne) = false)
    (hlast : isWhiteSpace (core.getLast hne) = false) :
    trim (w1 ++ core ++ w2) = core := by
  unfold trim
  rw [List.append_assoc, List.dropWhile_append_of_pos hw1]
  have h1 : (core ++ w2).dropWhile isWhiteSpace = core ++ w2 := by
    cases core with
    | nil => exact absurd rfl hne
    | cons c rest =>
      have hc : isWhiteSpace c = false := hhead
      simp [List.dropWhile_cons, hc]
  rw [h1, rdropWhile_append_of_pos core w2 hw2, List.rdropWhile_eq_self_iff]
  intro hl
  simp [hlast]

theorem trim_eq_self (core : List Char) (hne : core ≠ [])
    (hhead : isWhiteSpace (core.head hne) = false)
    (hlast : isWhiteSpace (core.getLast hne) = false) : trim core = core := by
  have := trim_of_ends [] core [] (by simp) (by simp) hne hhead hlast
  simpa using this

theorem trim_idem (s : List Char) : trim (trim s) = trim s := by
  by_cases hne : trim s = []
  · rw [hne]; rfl
  · apply trim_eq_self _ hne
    · have hd : (s.dropWhile isWhiteSpace) ≠ [] := by
        intro h
        apply hne
        simp [trim, h]
      have hpre : trim s <+: s.dropWhile isWhiteSpace := List.rdropWhile_prefix _ _
      obtain ⟨t, ht⟩ := hpre
      have h1 : (trim s).head hne = (s.dropWhile isWhiteSpace).head hd := by
        have : (trim s ++ t).head (by simp [hne]) = (s.dropWhile isWhiteSpace).head hd := by
          congr 1
        rw [← this, List.head_append_of_ne_nil]
      rw [h1]
      have := List.head_dropWhile_not isWhiteSpace s hd
      simpa using this
    · have := List.rdropWhile_last_not (p := isWhiteSpace) (l := s.dropWhile isWhiteSpace) hne
      simpa [trim] using this

theorem parsePrice_filter_isKept (s : JSString) : parsePrice (s.filter isKept) = parsePrice s := by
  simp only [parsePrice, cleanPrice_eq, filter_isKept_idem]

theorem stringToNumber_trim (s : JSString) : stringToNumber (trim s) = stringToNumber s := by
  simp only [stringToNumber, trim_idem]

/-! ## The string-to-number conversion and its grammar -/

theorem JSNumber.ofSignMag_ne_nan (neg : Bool) (q : ℚ) :
    JSNumber.ofSignMag neg q ≠ JSNumber.nan := by
  unfold JSNumber.ofSignMag
  split <;> split_ifs <;> simp

theorem isDecimalDigits_iff (ds : List Char) :
    isDecimalDigits ds = true ↔ ds ≠ [] ∧ IsDigitRun ds := by
  cases ds <;> simp [isDecimalDigits, IsDigitRun]

theorem isDigits_iff (radix : ℕ) (ds : List Char) :
    isDigits radix ds = true ↔ ds ≠ [] ∧ ∀ c ∈ ds, isDigitOf radix c = true := by
  cases ds <;> simp [isDigits]

theorem takeWhile_digits_append {ip : List Char} (rest : List Char) (hip : IsDigitRun ip)
    (hrest : ∀ c r, rest = c :: r → isDecimalDigit c = false) :
    (ip ++ rest).takeWhile isDecimalDigit = ip ∧
      (ip ++ rest).dropWhile isDecimalDigit = rest := by
  rw [List.takeWhile_append_of_pos hip, List.dropWhile_append_of_pos hip]
  cases rest with
  | nil => simp
  | cons c r =>
    have := hrest c r rfl
    simp [List.takeWhile_cons, List.dropWhile_cons, this]

theorem isDigitRun_takeWhile (cs : List Char) : IsDigitRun (cs.takeWhile isDecimalDigit) := by
  intro c hc
  exact (List.mem_takeWhile_imp hc)

theorem IsExponentPart.head {ex : List Char} (h : IsExponentPart ex) :
    ∃ c r, ex = c :: r ∧ (c = 'e' ∨ c = 'E') := by
  obtain ⟨ind, sign, ds, hind, _, _, _, rfl⟩ := h
  exact ⟨ind, _, rfl, hind⟩

theorem optExponent_head {ex : List Char} (h : ex = [] ∨ IsExponentPart ex) :
    ∀ c r, ex = c :: r → isDecimalDigit c = false ∧ c ≠ '.' ∧ (c = 'e' ∨ c = 'E') := by
  intro c r hcr
  rcases h with h | h
  · rw [h] at hcr; exact absurd hcr (by simp)
  · obtain ⟨c2, r2, h2, hc2⟩ := h.head
    rw [h2] at hcr
    obtain ⟨rfl, _⟩ := List.cons.inj hcr
    rcases hc2 with rfl | rfl <;> exact ⟨by decide, by decide, by simp⟩

theorem parseExponentPart_isSome_iff (ex : List Char) :
    (parseExponentPart ex).isSome = true ↔ (ex = [] ∨ IsExponentPart ex) := by
  constructor
  · intro h
    cases ex with
    | nil => exact Or.inl rfl
    | cons c rest =>
      right
      by_cases hc : c = 'e' ∨ c = 'E'
      · cases rest with
        | nil => simp [parseExponentPart, hc] at h
        | cons d ds =>
          by_cases hd1 : d = '+'
          · by_cases hd2 : isDecimalDigits ds = true
            · exact ⟨c, ['+'], ds, hc, Or.inr (Or.inl rfl), ((isDecimalDigits_iff ds).1 hd2).2,
                ((isDecimalDigits_iff ds).1 hd2).1, by simp [hd1]⟩
            · simp [parseExponentPart, hc, hd1, hd2] at h
          · by_cases hd3 : d = '-'
            · by_cases hd4 : isDecimalDigits ds = true
              · exact ⟨c, ['-'], ds, hc, Or.inr (Or.inr rfl), ((isDecimalDigits_iff ds).1 hd4).2,
                  ((isDecimalDigits_iff ds).1 hd4).1, by simp [hd3]⟩
              · simp [parseExponentPart, hc, hd1, hd3, hd4] at h
            · by_cases hd5 : isDecimalDigits (d :: ds) = true
              · exact ⟨c, [], d :: ds, hc, Or.inl rfl, ((isDecimalDigits_iff _).1 hd5).2,
                  by simp, by simp⟩
              · simp [parseExponentPart, hc, hd1, hd3, hd5] at h
      · simp [parseExponentPart, hc] at h
  · rintro (rfl | ⟨ind, sign, ds, hind, hsign, hds, hne, rfl⟩)
    · rfl
    · have hdd : isDecimalDigits ds = true := (isDecimalDigits_iff ds).2 ⟨hne, hds⟩
      rcases hsign with rfl | rfl | rfl
      · cases ds with
        | nil => exact absurd rfl hne
        | cons d ds2 =>
          have hd : isDecimalDigit d = true := hds d (by simp)
          have h1 : d ≠ '+' := by rintro rfl; revert hd; decide
          have h2 : d ≠ '-' := by rintro rfl; revert hd; decide
          simp [parseExponentPart, hind, h1, h2, hdd]
      · simp [parseExponentPart, hind, hdd]
      · simp [parseExponentPart, hind, hdd]

theorem parseUnsignedDecimal_intFrac (ip : List Char) (frac : Option (List Char))
    (hip : IsDigitRun ip) (hne : ip ≠ []) (hfp : ∀ fp, frac = some fp → IsDigitRun fp) :
    parseUnsignedDecimal (ip ++ fractionText frac) = some (decimalValue ip (frac.getD [])) := by
  cases frac with
  | none =>
    simp only [fractionText, List.append_nil, Option.getD_none]
    have h := takeWhile_digits_append ([]) hip (by simp)
    simp only [List.append_nil] at h
    simp [parseUnsignedDecimal, h.1, h.2, hne, decimalValue, digitsValue]
  | some fp =>
    have hfp2 := hfp fp rfl
    simp only [fractionText, Option.getD_some]
    have h := takeWhile_digits_append ('.' :: fp) hip (by
      intro c r hcr
      obtain ⟨rfl, _⟩ := List.cons.inj hcr
      decide)
    have h2 := takeWhile_digits_append ([]) hfp2 (by simp)
    simp only [List.append_nil] at h2
    simp [parseUnsignedDecimal, h.1, h.2, h2.1, h2.2, hne, decimalValue, parseExponentPart]

theorem parseUnsignedDecimal_isSome_iff (cs : List Char) :
    (parseUnsignedDecimal cs).isSome = true ↔
      ((∃ ip fp ex, IsDigitRun ip ∧ ip ≠ [] ∧ IsDigitRun fp ∧ (ex = [] ∨ IsExponentPart ex) ∧
          cs = ip ++ '.' :: (fp ++ ex)) ∨
       (∃ fp ex, IsDigitRun fp ∧ fp ≠ [] ∧ (ex = [] ∨ IsExponentPart ex) ∧
          cs = '.' :: (fp ++ ex)) ∨
       (∃ ip ex, IsDigitRun ip ∧ ip ≠ [] ∧ (ex = [] ∨ IsExponentPart ex) ∧ cs = ip ++ ex)) := by
  constructor
  · intro h
    have hsplit : cs.takeWhile isDecimalDigit ++ cs.dropWhile isDecimalDigit = cs :=
      List.takeWhile_append_dropWhile _ _
    have hip := isDigitRun_takeWhile cs
    unfold parseUnsignedDecimal at h
    simp only at h
    generalize cs.takeWhile isDecimalDigit = ip at h hsplit hip
    generalize cs.dropWhile isDecimalDigit = rest at h hsplit
    cases rest with
    | nil =>
      simp only at h
      by_cases hne : ip = []
      · simp [hne] at h
      · right; right
        exact ⟨ip, [], hip, hne, Or.inl rfl, hsplit.symm⟩
    | cons c r =>
      simp only at h
      by_cases hc : c = '.'
      · subst hc
        have hsplit2 : r.takeWhile isDecimalDigit ++ r.dropWhile isDecimalDigit = r :=
          List.takeWhile_append_dropWhile _ _
        have hfp := isDigitRun_takeWhile r
        simp only [if_true] at h
        generalize r.takeWhile isDecimalDigit = fp at h hsplit2 hfp
        generalize r.dropWhile isDecimalDigit = ex at h hsplit2
        by_cases hboth : ip = [] ∧ fp = []
        · simp [hboth] at h
        · rw [if_neg hboth] at h
          have hex : (parseExponentPart ex).isSome = true := by
            cases hp : parseExponentPart ex with
            | none => simp [hp] at h
            | some e => rfl
          have hex2 := (parseExponentPart_isSome_iff ex).1 hex
          by_cases hne : ip = []
          · right; left
            refine ⟨fp, ex, hfp, ?_, hex2, ?_⟩
            · intro hf; exact hboth ⟨hne, hf⟩
            · rw [← hsplit, hne, hsplit2]; rfl
          · left
            exact ⟨ip, fp, ex, hip, hne, hfp, hex2, by rw [← hsplit, hsplit2]⟩
      · rw [if_neg hc] at h
        by_cases hne : ip = []
        · simp [hne] at h
        · rw [if_neg hne] at h
          have hex : (parseExponentPart (c :: r)).isSome = true := by
            cases hp : parseExponentPart (c :: r) with
            | none => simp [hp] at h
            | some e => rfl
          right; right
          exact ⟨ip, c :: r, hip, hne, (parseExponentPart_isSome_iff _).1 hex, hsplit.symm⟩
  · rintro (⟨ip, fp, ex, hip, hne, hfp, hex, rfl⟩ | ⟨fp, ex, hfp, hne, hex, rfl⟩ |
      ⟨ip, ex, hip, hne, hex, rfl⟩)
    · have h := takeWhile_digits_append ('.' :: (fp ++ ex)) hip (by
        intro c r hcr
        obtain ⟨rfl, _⟩ := List.cons.inj hcr
        decide)
      have h2 := takeWhile_digits_append (ex) hfp
        (fun c r hcr => (optExponent_head hex c r hcr).1)
      have hs := (parseExponentPart_isSome_iff ex).2 hex
      obtain ⟨e, he⟩ := Option.isSome_iff_exists.1 hs
      simp [parseUnsignedDecimal, h.1, h.2, h2.1, h2.2, hne, he]
    · have h2 := takeWhile_digits_append (ex) hfp
        (fun c r hcr => (optExponent_head hex c r hcr).1)
      have hs := (parseExponentPart_isSome_iff ex).2 hex
      obtain ⟨e, he⟩ := Option.isSome_iff_exists.1 hs
      have h0 : isDecimalDigit '.' = false := by decide
      simp [parseUnsignedDecimal, List.takeWhile_cons, List.dropWhile_cons, h0, h2.1, h2.2,
        hne, he]
    · have h := takeWhile_digits_append (ex) hip
        (fun c r hcr => (optExponent_head hex c r hcr).1)
      have hs := (parseExponentPart_isSome_iff ex).2 hex
      obtain ⟨e, he⟩ := Option.isSome_iff_exists.1 hs
      cases ex with
      | nil =>
        simp only [List.append_nil] at h
        simp [parseUnsignedDecimal, h.1, h.2, hne]
      | cons c r =>
        have hc := (optExponent_head hex c r rfl).2.1
        simp [parseUnsignedDecimal, h.1, h.2, hne, hc, he]

theorem parseNonDecimal_isSome_iff (cs : List Char) :
    (parseNonDecimal cs).isSome = true ↔ IsNonDecimal cs := by
  constructor
  · intro h
    match cs, h with
    | z :: x :: ds, h =>
      by_cases hz : z = '0'
      · subst hz
        by_cases hb : x = 'b' ∨ x = 'B'
        · by_cases hd : isDigits 2 ds = true
          · exact ⟨x, ds, rfl, ((isDigits_iff 2 ds).1 hd).1,
              Or.inl ⟨hb, ((isDigits_iff 2 ds).1 hd).2⟩⟩
          · simp [parseNonDecimal, hb, hd] at h
        · by_cases ho : x = 'o' ∨ x = 'O'
          · by_cases hd : isDigits 8 ds = true
            · exact ⟨x, ds, rfl, ((isDigits_iff 8 ds).1 hd).1,
                Or.inr (Or.inl ⟨ho, ((isDigits_iff 8 ds).1 hd).2⟩)⟩
            · simp [parseNonDecimal, hb, ho, hd] at h
          · by_cases hx : x = 'x' ∨ x = 'X'
            · by_cases hd : isDigits 16 ds = true
              · exact ⟨x, ds, rfl, ((isDigits_iff 16 ds).1 hd).1,
                  Or.inr (Or.inr ⟨hx, ((isDigits_iff 16 ds).1 hd).2⟩)⟩
              · simp [parseNonDecimal, hb, ho, hx, hd] at h
            · simp [parseNonDecimal, hb, ho, hx] at h
      · simp [parseNonDecimal, hz] at h
    | [], h => simp [parseNonDecimal] at h
    | [_], h => simp [parseNonDecimal] at h
  · rintro ⟨x, ds, rfl, hne, h⟩
    rcases h with ⟨hx, hd⟩ | ⟨hx, hd⟩ | ⟨hx, hd⟩
    · have := (isDigits_iff 2 ds).2 ⟨hne, hd⟩
      simp [parseNonDecimal, hx, this]
    · have := (isDigits_iff 8 ds).2 ⟨hne, hd⟩
      rcases hx with rfl | rfl <;> simp [parseNonDecimal, this]
    · have := (isDigits_iff 16 ds).2 ⟨hne, hd⟩
      rcases hx with rfl | rfl <;> simp [parseNonDecimal, this]

theorem IsDigitRun.digits_head_ne_sign {ip : List Char} (hip : IsDigitRun ip) (hne : ip ≠ [])
    (rest : List Char) : ∃ c r, ip ++ rest = c :: r ∧ c ≠ '+' ∧ c ≠ '-' := by
  cases ip with
  | nil => exact absurd rfl hne
  | cons d ds =>
    have hd : isDecimalDigit d = true := hip d (by simp)
    refine ⟨d, ds ++ rest, rfl, ?_, ?_⟩
    · rintro rfl; revert hd; decide
    · rintro rfl; revert hd; decide

theorem IsUnsignedDecimal.head_ne_sign {u : List Char} (h : IsUnsignedDecimal u) :
    ∃ c r, u = c :: r ∧ c ≠ '+' ∧ c ≠ '-' := by
  rcases h with rfl | ⟨ip, fp, ex, hip, hne, _, _, rfl⟩ | ⟨fp, ex, _, _, _, rfl⟩ |
    ⟨ip, ex, hip, hne, _, rfl⟩
  · exact ⟨'I', "nfinity".toList, rfl, by decide, by decide⟩
  · exact hip.digits_head_ne_sign hne _
  · exact ⟨'.', _, rfl, by decide, by decide⟩
  · exact hip.digits_head_ne_sign hne _

theorem unsignedDecimalToNumber_ne_nan_iff (neg : Bool) (cs : List Char) :
    unsignedDecimalToNumber neg cs ≠ JSNumber.nan ↔ IsUnsignedDecimal cs := by
  unfold unsignedDecimalToNumber IsUnsignedDecimal
  by_cases hinf : cs = infinityText
  · simp only [hinf, if_true, true_or, iff_true]
    cases neg <;> simp
  · rw [if_neg hinf]
    rw [← parseUnsignedDecimal_isSome_iff]
    cases hp : parseUnsignedDecimal cs with
    | none => simp [hinf]
    | some mv => simp [hinf, JSNumber.ofSignMag_ne_nan]

theorem isStrNumericLiteral_cons_iff (c : Char) (rest : List Char)
    (hnd : ¬ IsNonDecimal (c :: rest)) :
    IsStrNumericLiteral (c :: rest) ↔
      (if c = '+' ∨ c = '-' then IsUnsignedDecimal rest else IsUnsignedDecimal (c :: rest)) := by
  constructor
  · rintro (h | ⟨sign, u, hsign, hu, hcs⟩)
    · exact absurd h hnd
    · obtain ⟨c2, r2, hu2, hp, hm⟩ := hu.head_ne_sign
      rcases hsign with rfl | rfl | rfl
      · simp only [List.nil_append] at hcs
        rw [hu2] at hcs
        obtain ⟨rfl, _⟩ := List.cons.inj hcs
        rw [if_neg (by simp [hp, hm]), hcs, ← hu2]
        exact hu
      · simp only [List.singleton_append] at hcs
        obtain ⟨rfl, rfl⟩ := List.cons.inj hcs
        simpa using hu
      · simp only [List.singleton_append] at hcs
        obtain ⟨rfl, rfl⟩ := List.cons.inj hcs
        simpa using hu
  · intro h
    right
    by_cases hc : c = '+' ∨ c = '-'
    · rw [if_pos hc] at h
      rcases hc with rfl | rfl
      · exact ⟨['+'], rest, Or.inr (Or.inl rfl), h, rfl⟩
      · exact ⟨['-'], rest, Or.inr (Or.inr rfl), h, rfl⟩
    · rw [if_neg hc] at h
      exact ⟨[], c :: rest, Or.inl rfl, h, rfl⟩

/-- The string-to-number conversion yields NaN exactly for a text that, once
trimmed, is neither empty nor a `StrNumericLiteral`. -/
theorem stringToNumber_eq_nan_iff (s : JSString) :
    stringToNumber s = JSNumber.nan ↔ trim s ≠ [] ∧ ¬ IsStrNumericLiteral (trim s) := by
  unfold stringToNumber
  cases ht : trim s with
  | nil => simp
  | cons c rest =>
    simp only [ne_eq, reduceCtorEq, not_false_eq_true, true_and]
    cases hp : parseNonDecimal (c :: rest) with
    | some n =>
      have hnd : IsNonDecimal (c :: rest) :=
        (parseNonDecimal_isSome_iff _).1 (by rw [hp]; rfl)
      simp only [JSNumber.ofSignMag_ne_nan, false_iff, not_not]
      exact Or.inl hnd
    | none =>
      have hnd : ¬ IsNonDecimal (c :: rest) := by
        intro h
        have := (parseNonDecimal_isSome_iff _).2 h
        rw [hp] at this
        exact absurd this (by simp)
      simp only
      rw [isStrNumericLiteral_cons_iff c rest hnd]
      by_cases hplus : c = '+'
      · subst hplus
        simp only [if_true, true_or]
        rw [← unsignedDecimalToNumber_ne_nan_iff false rest, not_not]
      · by_cases hminus : c = '-'
        · subst hminus
          simp only [hplus, if_false, if_true, or_true]
          rw [← unsignedDecimalToNumber_ne_nan_iff true rest, not_not]
        · simp only [hplus, hminus, if_false, or_self]
          rw [← unsignedDecimalToNumber_ne_nan_iff false (c :: rest), not_not]

theorem trim_cleanPrice (s : JSString) : trim (cleanPrice s) = cleanPrice s := by
  rw [cleanPrice_eq, trim_idem]

theorem isWhiteSpace_point : isWhiteSpace '.' = false := by decide

theorem not_isWhiteSpace_of_digit_or_point {c : Char}
    (h : isDecimalDigit c = true ∨ c = '.') : isWhiteSpace c = false := by
  rcases h with h | rfl
  · exact isDecimalDigit_not_isWhiteSpace h
  · exact isWhiteSpace_point

theorem mem_intFrac {ip : List Char} {frac : Option (List Char)} (hip : IsDigitRun ip)
    (hfp : ∀ fp, frac = some fp → IsDigitRun fp) :
    ∀ c ∈ ip ++ fractionText frac, isDecimalDigit c = true ∨ c = '.' := by
  intro c hc
  rw [List.mem_append] at hc
  rcases hc with hc | hc
  · exact Or.inl (hip c hc)
  · cases frac with
    | none => simp [fractionText] at hc
    | some fp =>
      simp only [fractionText, List.mem_cons] at hc
      rcases hc with rfl | hc
      · exact Or.inr rfl
      · exact Or.inl (hfp fp rfl c hc)

theorem stringToNumber_intFrac (ip : List Char) (frac : Option (List Char))
    (hip : IsDigitRun ip) (hne : ip ≠ []) (hfp : ∀ fp, frac = some fp → IsDigitRun fp) :
    stringToNumber (ip ++ fractionText frac) =
      JSNumber.ofSignMag false (decimalValue ip (frac.getD [])) := by
  have hmem := mem_intFrac hip hfp
  have hcne : ip ++ fractionText frac ≠ [] := by simp [hne]
  have htrim : trim (ip ++ fractionText frac) = ip ++ fractionText frac :=
    trim_eq_self _ hcne
      (not_isWhiteSpace_of_digit_or_point (hmem _ (List.head_mem hcne)))
      (not_isWhiteSpace_of_digit_or_point (hmem _ (List.getLast_mem hcne)))
  have hparse := parseUnsignedDecimal_intFrac ip frac hip hne hfp
  have hnd : parseNonDecimal (ip ++ fractionText frac) = none := by
    cases hp : parseNonDecimal (ip ++ fractionText frac) with
    | none => rfl
    | some n =>
      exfalso
      obtain ⟨x, ds, hcs, _, hx⟩ := (parseNonDecimal_isSome_iff _).1 (by rw [hp]; rfl)
      have hxm : isDecimalDigit x = true ∨ x = '.' := hmem x (by rw [hcs]; simp)
      rcases hx with ⟨hx, _⟩ | ⟨hx, _⟩ | ⟨hx, _⟩ <;> rcases hx with rfl | rfl <;>
        revert hxm <;> decide
  unfold stringToNumber
  rw [htrim]
  cases hcs : ip ++ fractionText frac with
  | nil => exact absurd hcs hcne
  | cons c rest =>
    rw [hcs] at hnd hparse
    have hc : isDecimalDigit c = true := by
      cases ip with
      | nil => exact absurd rfl hne
      | cons d ds =>
        simp only [List.cons_append] at hcs
        obtain ⟨rfl, _⟩ := List.cons.inj hcs
        exact hip _ (by simp)
    have h1 : c ≠ '+' := by rintro rfl; revert hc; decide
    have h2 : c ≠ '-' := by rintro rfl; revert hc; decide
    have h3 : c :: rest ≠ infinityText := by
      intro h
      have hI : c = 'I' := by
        have := congrArg List.head? h
        simpa [infinityText] using this
      rw [hI] at hc
      revert hc
      decide
    simp only [hnd, h1, h2, if_false, unsignedDecimalToNumber, h3, hparse]

theorem filter_isKept_digits {ip : List Char} (hip : ∀ c ∈ ip, isDecimalDigit c = true ∨ c = ',') :
    ip.filter isKept = ip.filter isDecimalDigit := by
  apply List.filter_congr
  intro c hc
  rcases hip c hc with h | rfl
  · rw [h, isDecimalDigit_isKept h]
  · decide

theorem filter_isKept_noise {pre : List Char}
    (hpre : ∀ c ∈ pre, isWhiteSpace c = true ∨ isCurrencyMarker c = true) :
    ∀ c ∈ pre.filter isKept, isWhiteSpace c = true := by
  intro c hc
  rw [List.mem_filter] at hc
  rcases hpre c hc.1 with h | h
  · exact h
  · have := hc.2
    simp [isKept, h] at this

theorem filter_isKept_fractionText (frac : Option (List Char))
    (hfp : ∀ fp, frac = some fp → ∀ c ∈ fp, isDecimalDigit c = true ∨ c = ',') :
    (fractionText frac).filter isKept =
      fractionText (frac.map fun fp => fp.filter isDecimalDigit) := by
  cases frac with
  | none => rfl
  | some fp =>
    have hk : isKept '.' = true := by decide
    simp only [fractionText, Option.map_some', List.filter_cons, hk, if_true]
    rw [filter_isKept_digits (hfp fp rfl)]

theorem cleanPrice_grouped (pre post ip : List Char) (frac : Option (List Char))
    (hpre : ∀ c ∈ pre, isWhiteSpace c = true ∨ isCurrencyMarker c = true)
    (hpost : ∀ c ∈ post, isWhiteSpace c = true ∨ isCurrencyMarker c = true)
    (hip : ∀ c ∈ ip, isDecimalDigit c = true ∨ c = ',')
    (hdigit : ∃ c ∈ ip, isDecimalDigit c = true)
    (hfp : ∀ fp, frac = some fp → ∀ c ∈ fp, isDecimalDigit c = true ∨ c = ',') :
    cleanPrice (pre ++ ip ++ fractionText frac ++ post) =
      ip.filter isDecimalDigit ++ fractionText (frac.map fun fp => fp.filter isDecimalDigit) := by
  rw [cleanPrice_eq]
  simp only [List.filter_append, filter_isKept_digits hip, filter_isKept_fractionText frac hfp]
  have hrun : IsDigitRun (ip.filter isDecimalDigit) := fun c hc => (List.mem_filter.1 hc).2
  have hne : ip.filter isDecimalDigit ≠ [] := by
    obtain ⟨c, hc, hd⟩ := hdigit
    exact List.ne_nil_of_mem (List.mem_filter.2 ⟨hc, hd⟩)
  have hfrun : ∀ fp, (frac.map fun fp => fp.filter isDecimalDigit) = some fp → IsDigitRun fp := by
    intro fp hfpe c hc
    cases frac with
    | none => simp at hfpe
    | some fp0 =>
      simp only [Option.map_some', Option.some.injEq] at hfpe
      rw [← hfpe] at hc
      exact (List.mem_filter.1 hc).2
  have hmem := mem_intFrac hrun hfrun
  have hcne : ip.filter isDecimalDigit ++
      fractionText (frac.map fun fp => fp.filter isDecimalDigit) ≠ [] := by simp [hne]
  rw [List.append_assoc (pre.filter isKept)]
  exact trim_of_ends _ _ _ (filter_isKept_noise hpre) (filter_isKept_noise hpost) hcne
    (not_isWhiteSpace_of_digit_or_point (hmem _ (List.head_mem hcne)))
    (not_isWhiteSpace_of_digit_or_point (hmem _ (List.getLast_mem hcne)))

/-! ## Claims on `parsePrice` -/

/-- C8: for a price text made of currency markers and white space, then a
run of decimal digits and commas with at least one digit, then optionally a
point and a fraction of digits (commas allowed there too), then currency
markers and white space, `parsePrice` returns the Number of the decimal
numeral formed by the digits with every comma deleted: the integer digits
plus the fraction digits over the matching power of ten, rounded to a Number;
when the text has no fraction and the digits denote an integer below `2 ^ 53`
the result is that integer exactly. -/
theorem parsePrice_grouped (pre post ip : List Char) (frac : Option (List Char))
    (hpre : ∀ c ∈ pre, isWhiteSpace c = true ∨ isCurrencyMarker c = true)
    (hpost : ∀ c ∈ post, isWhiteSpace c = true ∨ isCurrencyMarker c = true)
    (hip : ∀ c ∈ ip, isDecimalDigit c = true ∨ c = ',')
    (hdigit : ∃ c ∈ ip, isDecimalDigit c = true)
    (hfp : ∀ fp, frac = some fp → ∀ c ∈ fp, isDecimalDigit c = true ∨ c = ',') :
    parsePrice (pre ++ ip ++ fractionText frac ++ post) =
      JSNumber.ofSignMag false
        (decimalValue (ip.filter isDecimalDigit) ((frac.getD []).filter isDecimalDigit)) ∧
    (frac = none → digitsValue 10 (ip.filter isDecimalDigit) < 2 ^ 53 →
      parsePrice (pre ++ ip ++ fractionText frac ++ post) =
        JSNumber.fin (digitsValue 10 (ip.filter isDecimalDigit))) := by
  have hrun : IsDigitRun (ip.filter isDecimalDigit) := fun c hc => (List.mem_filter.1 hc).2
  have hne : ip.filter isDecimalDigit ≠ [] := by
    obtain ⟨c, hc, hd⟩ := hdigit
    exact List.ne_nil_of_mem (List.mem_filter.2 ⟨hc, hd⟩)
  have hfrun : ∀ fp, (frac.map fun fp => fp.filter isDecimalDigit) = some fp → IsDigitRun fp := by
    intro fp hfpe c hc
    cases frac with
    | none => simp at hfpe
    | some fp0 =>
      simp only [Option.map_some', Option.some.injEq] at hfpe
      rw [← hfpe] at hc
      exact (List.mem_filter.1 hc).2
  have hmain : parsePrice (pre ++ ip ++ fractionText frac ++ post) =
      JSNumber.ofSignMag false
        (decimalValue (ip.filter isDecimalDigit) ((frac.getD []).filter isDecimalDigit)) := by
    unfold parsePrice
    rw [cleanPrice_grouped pre post ip frac hpre hpost hip hdigit hfp,
      stringToNumber_intFrac _ _ hrun hne hfrun]
    cases frac <;> rfl
  refine ⟨hmain, ?_⟩
  intro hnone hlt
  rw [hmain, hnone]
  have hv : decimalValue (ip.filter isDecimalDigit) ((none : Option (List Char)).getD []
      |>.filter isDecimalDigit) = ((digitsValue 10 (ip.filter isDecimalDigit) : ℕ) : ℚ) := by
    simp [decimalValue, digitsValue]
  rw [hv]
  have := JSNumber.ofRat_natCast _ hlt
  unfold JSNumber.ofRat at this
  have hneg : decide (((digitsValue 10 (ip.filter isDecimalDigit) : ℕ) : ℚ) < 0) = false := by
    simp
  rw [abs_of_nonneg (Nat.cast_nonneg _), hneg] at this
  exact this

/-- Witness of C8: the two inputs of the tests "parses price with euro sign and
commas" and "parses price without euro sign". -/
theorem parsePrice_grouped_witness :
    parsePrice "€ 3,08,370.00".toList = JSNumber.fin 308370 ∧
    parsePrice "5,57,000".toList = JSNumber.fin 557000 :=
  ⟨(congrArg parsePrice (by decide)).trans
      (((parsePrice_grouped "€ ".toList [] "3,08,370".toList (some "00".toList)
        (by decide) (by decide) (by decide) (by decide)
        (by intro fp h; cases h; decide)).1).trans (by decide!)),
   (congrArg parsePrice (by decide)).trans
      (((parsePrice_grouped [] [] "5,57,000".toList none
        (by decide) (by decide) (by decide) (by decide)
        (by intro fp h; cases h)).2 rfl (by decide)).trans (by decide!))⟩

/-- C9, counterexample: a dollar sign is not one of the removed characters.
The text `$1,000.00` parses to NaN, while the same text without the dollar
sign, which is what deleting every character other than digits, commas, the
point and the minus sign leaves, parses to `1000`.  Likewise a blank inside
the number, and the letter of an exponent. -/
theorem parsePrice_noise_counterexample :
    "$1,000.00".toList.filter (fun c => !isClaimedNoise c) = "1,000.00".toList ∧
    parsePrice "$1,000.00".toList = JSNumber.nan ∧
    parsePrice "1,000.00".toList = JSNumber.fin 1000 ∧
    parsePrice "$1,000.00".toList ≠
      parsePrice ("$1,000.00".toList.filter (fun c => !isClaimedNoise c)) ∧
    parsePrice "1 000".toList = JSNumber.nan ∧
    parsePrice ("1 000".toList.filter (fun c => !isClaimedNoise c)) = JSNumber.fin 1000 ∧
    parsePrice "1e3".toList = JSNumber.fin 1000 ∧
    parsePrice ("1e3".toList.filter (fun c => !isClaimedNoise c)) = JSNumber.fin 13 := by
  decide!

/-- C9, amended: the characters `parsePrice` deletes wherever they occur are
exactly the euro sign, the replacement character U+FFFD and the comma; white
space is removed at both ends only.  For every text, `parsePrice` of the text
equals `parsePrice` of the text with those three characters deleted, and is
`Number` of that text trimmed.  The price of the test data, with a mis-decoded
currency glyph in front, parses to `79500`. -/
theorem parsePrice_removes_markers (s : JSString) :
    parsePrice s = parsePrice (s.filter isKept) ∧
    parsePrice s = stringToNumber (trim (s.filter isKept)) ∧
    parsePrice s = stringToNumber (s.filter isKept) ∧
    (∀ c, isKept c = false ↔ (c = '€' ∨ c = Char.ofNat 0xFFFD ∨ c = ',')) ∧
    parsePrice ([Char.ofNat 0xFFFD] ++ "79,500.00".toList) = JSNumber.fin 79500 := by
  refine ⟨(parsePrice_filter_isKept s).symm, ?_, ?_, ?_, by decide!⟩
  · rw [parsePrice, cleanPrice_eq]
  · rw [parsePrice, cleanPrice_eq, stringToNumber_trim]
  · intro c
    simp only [isKept, isCurrencyMarker, Bool.not_eq_false', Bool.or_eq_true, beq_iff_eq,
      or_assoc]

/-- C10, counterexample: the cleaned text of a lone euro sign is empty, which
is not an optionally signed run of digits with an optional fraction, yet the
result is `0` and not NaN.  The same holds for an exponent form, a leading
point, a hexadecimal literal and `Infinity`. -/
theorem parsePrice_nan_counterexample :
    cleanPrice "€".toList = [] ∧
    isSignedDigitsWithFraction (cleanPrice "€".toList) = false ∧
    parsePrice "€".toList = JSNumber.fin 0 ∧
    isSignedDigitsWithFraction (cleanPrice "1e3".toList) = false ∧
    parsePrice "1e3".toList = JSNumber.fin 1000 ∧
    isSignedDigitsWithFraction (cleanPrice ".5".toList) = false ∧
    parsePrice ".5".toList = JSNumber.fin (1 / 2) ∧
    isSignedDigitsWithFraction (cleanPrice "0x1F".toList) = false ∧
    parsePrice "0x1F".toList = JSNumber.fin 31 ∧
    isSignedDigitsWithFraction (cleanPrice "Infinity".toList) = false ∧
    parsePrice "Infinity".toList = JSNumber.posInf := by
  decide!

theorem isStrNumericLiteral_of_signedDigits {cs : List Char}
    (h : isSignedDigitsWithFraction cs = true) : IsStrNumericLiteral cs := by
  have key : ∀ body : List Char,
      (!(body.takeWhile isDecimalDigit).isEmpty &&
        (match body.dropWhile isDecimalDigit with
         | [] => true
         | c :: fp => c == '.' && fp.all isDecimalDigit)) = true →
      IsUnsignedDecimal body := by
    intro body hb
    have hsplit : body.takeWhile isDecimalDigit ++ body.dropWhile isDecimalDigit = body :=
      List.takeWhile_append_dropWhile _ _
    have hip := isDigitRun_takeWhile body
    generalize body.takeWhile isDecimalDigit = ip at hb hsplit hip
    generalize body.dropWhile isDecimalDigit = rest at hb hsplit
    simp only [Bool.and_eq_true, Bool.not_eq_true', List.isEmpty_eq_false] at hb
    obtain ⟨hne, hrest⟩ := hb
    cases rest with
    | nil =>
      right; right; right
      exact ⟨ip, [], hip, hne, Or.inl rfl, hsplit.symm⟩
    | cons c fp =>
      simp only [Bool.and_eq_true, beq_iff_eq, List.all_eq_true] at hrest
      obtain ⟨rfl, hfp⟩ := hrest
      right; left
      exact ⟨ip, fp, [], hip, hne, hfp, Or.inl rfl, by simp [hsplit]⟩
  right
  unfold isSignedDigitsWithFraction at h
  cases cs with
  | nil => exact absurd h (by decide)
  | cons c rest =>
    simp only at h
    by_cases hc : c = '+' ∨ c = '-'
    · rw [if_pos hc] at h
      rcases hc with rfl | rfl
      · exact ⟨['+'], rest, Or.inr (Or.inl rfl), key rest h, rfl⟩
      · exact ⟨['-'], rest, Or.inr (Or.inr rfl), key rest h, rfl⟩
    · rw [if_neg hc] at h
      exact ⟨[], c :: rest, Or.inl rfl, key _ h, rfl⟩

/-- C10, amended: `parsePrice` is a total function of its string argument and
signals invalid input through its value alone.  The value is NaN exactly when
the cleaned text (markers and commas deleted, then trimmed) is neither empty
nor a `StrNumericLiteral` of the language: an optionally signed decimal
literal (digits with an optional fraction, or a leading point, each with an
optional exponent), a signed `Infinity`, or a `0b`, `0o`, `0x` integer.  The
empty cleaned text gives `0`.  In particular an optionally signed run of
digits with an optional fraction never gives NaN, and the text of the test,
the word invalid, gives NaN. -/
theorem parsePrice_nan_iff (s : JSString) :
    (∃ n : JSNumber, parsePrice s = n) ∧
    (parsePrice s = JSNumber.nan ↔
      cleanPrice s ≠ [] ∧ ¬ IsStrNumericLiteral (cleanPrice s)) ∧
    (cleanPrice s = [] → parsePrice s = JSNumber.fin 0) ∧
    (isSignedDigitsWithFraction (cleanPrice s) = true → parsePrice s ≠ JSNumber.nan) ∧
    parsePrice "invalid".toList = JSNumber.nan := by
  have hiff : parsePrice s = JSNumber.nan ↔
      cleanPrice s ≠ [] ∧ ¬ IsStrNumericLiteral (cleanPrice s) := by
    rw [parsePrice, stringToNumber_eq_nan_iff, trim_cleanPrice]
  refine ⟨⟨_, rfl⟩, hiff, ?_, ?_, by decide!⟩
  · intro h
    rw [parsePrice, h]
    rfl
  · intro h hnan
    exact (hiff.1 hnan).2 (isStrNumericLiteral_of_signedDigits h)

/-- Witness of C10: a text in the claimed shape, and the empty cleaned text. -/
theorem parsePrice_nan_iff_witness :
    parsePrice "-12.50".toList ≠ JSNumber.nan ∧ parsePrice " , ".toList = JSNumber.fin 0 :=
  ⟨(parsePrice_nan_iff "-12.50".toList).2.2.2.1 (by decide),
   (parsePrice_nan_iff " , ".toList).2.2.1 (by decide)⟩

/-! ## Lemmas on `parsePropertyData` -/

theorem JSNumber.lt_zero_iff_not_le (p : JSNumber) (h : p.isNaN = false) :
    (JSNumber.fin 0).lt p = true ↔ ¬ (p.le (JSNumber.fin 0) = true) := by
  have h0 : (JSNumber.fin 0).isNaN = false := rfl
  unfold JSNumber.le
  rw [h, h0]
  cases (JSNumber.fin 0).lt p <;> simp

theorem onData_eq (properties : List PropertyRecord) (row : Row) :
    onData properties row = properties ++ (recordOfRow row).toList := by
  unfold onData recordOfRow
  cases hs : row.lookup streetNameColumn with
  | none => simp [isMissing]
  | some street =>
    cases hp : row.lookup priceColumn with
    | none => simp [isMissing]
    | some priceStr =>
      by_cases h1 : street = []
      · simp [isMissing, h1]
      · by_cases h2 : priceStr = []
        · simp [isMissing, h2]
        · have e1 : street.isEmpty = false := by simpa using h1
          have e2 : priceStr.isEmpty = false := by simpa using h2
          simp only [isMissing, e1, e2, Bool.or_self, Bool.false_eq_true, if_false,
            Option.getD_some, h1, h2, or_self]
          cases hn : (parsePrice priceStr).isNaN with
          | true => simp
          | false =>
            by_cases hl : (JSNumber.fin 0).lt (parsePrice priceStr) = true
            · have := (JSNumber.lt_zero_iff_not_le _ hn).1 hl
              simp [hl, this]
            · have hle : (parsePrice priceStr).le (JSNumber.fin 0) = true := by
                by_contra hc
                exact hl ((JSNumber.lt_zero_iff_not_le _ hn).2 hc)
              simp [hl, hle]

theorem foldl_onData (rows : List Row) : ∀ acc : List PropertyRecord,
    rows.foldl onData acc = acc ++ rows.filterMap recordOfRow := by
  induction rows with
  | nil => intro acc; simp
  | cons row rest ih =>
    intro acc
    rw [List.foldl_cons, ih, onData_eq]
    cases h : recordOfRow row <;> simp [List.filterMap_cons, h]

theorem collectRows_eq_filterMap (rows : List Row) :
    collectRows rows = rows.filterMap recordOfRow := by
  rw [collectRows, foldl_onData]
  rfl

theorem trim_eq_nil_of_whiteSpace (data : JSString)
    (h : ∀ c ∈ data, isWhiteSpace c = true) : trim data = [] := by
  have : data.dropWhile isWhiteSpace = [] := by
    rw [List.dropWhile_eq_nil_iff]
    exact h
  simp [trim, this]

theorem whiteSpace_of_trim_eq_nil (data : JSString) (h : trim data = []) :
    ∀ c ∈ data, isWhiteSpace c = true := by
  unfold trim at h
  rw [List.rdropWhile_eq_nil_iff] at h
  intro c hc
  by_contra hn
  have hsplit := List.takeWhile_append_dropWhile isWhiteSpace data
  have hmem : c ∈ data.takeWhile isWhiteSpace ++ data.dropWhile isWhiteSpace := by
    rw [hsplit]; exact hc
  rcases List.mem_append.1 hmem with h1 | h1
  · exact hn (List.mem_takeWhile_imp h1)
  · exact hn (h c h1)

theorem recordOfRow_some {row : Row} {r : PropertyRecord} (h : recordOfRow row = some r) :
    r.street ≠ [] ∧ r.price.isNaN = false ∧ (JSNumber.fin 0).lt r.price = true ∧
    row.lookup streetNameColumn = some r.street ∧
    ∃ priceStr, row.lookup priceColumn = some priceStr ∧ priceStr ≠ [] ∧
      r.price = parsePrice priceStr := by
  unfold recordOfRow at h
  cases hs : row.lookup streetNameColumn with
  | none => simp [hs] at h
  | some street =>
    cases hp : row.lookup priceColumn with
    | none => simp [hs, hp] at h
    | some priceStr =>
      rw [hs, hp] at h
      simp only at h
      split_ifs at h with h1 h2
      have h3 := Option.some.inj h
      subst h3
      simp only [not_or] at h1 h2
      have hn : (parsePrice priceStr).isNaN = false := by simpa using h2.1
      exact ⟨h1.1, hn, (JSNumber.lt_zero_iff_not_le _ hn).2 h2.2, rfl, priceStr, rfl, h1.2, rfl⟩

theorem JSNumber.pos_cases (p : JSNumber) (_ : p.isNaN = false)
    (hl : (JSNumber.fin 0).lt p = true) :
    p = JSNumber.posInf ∨ ∃ q : ℚ, p = JSNumber.fin q ∧ 0 < q := by
  cases p with
  | nan => simp [JSNumber.lt] at hl
  | posInf => exact Or.inl rfl
  | negInf => simp [JSNumber.lt] at hl
  | negZero => simp [JSNumber.lt, JSNumber.toRat] at hl
  | fin q =>
    right
    refine ⟨q, rfl, ?_⟩
    simpa [JSNumber.lt, JSNumber.toRat] using hl

theorem parsePropertyData_of_rows (parse : JSString → Except JSString (List Row))
    (filePath data : JSString) (rows : List Row) (hdata : trim data ≠ [])
    (hparse : parse data = Except.ok rows) :
    parsePropertyData parse filePath (Except.ok data) = Except.ok (collectRows rows) := by
  have he : (trim data).isEmpty = false := by simpa using hdata
  simp only [parsePropertyData, he, hparse]
  rfl

theorem parsePropertyData_ok_inv (parse : JSString → Except JSString (List Row))
    (filePath : JSString) (readFile : Except ReadError JSString) (records : List PropertyRecord)
    (h : parsePropertyData parse filePath readFile = Except.ok records) :
    ∃ data rows, readFile = Except.ok data ∧ trim data ≠ [] ∧ parse data = Except.ok rows ∧
      records = collectRows rows := by
  unfold parsePropertyData at h
  cases readFile with
  | error e => exact Except.noConfusion h
  | ok data =>
    simp only at h
    by_cases he : (trim data).isEmpty = true
    · rw [if_pos he] at h; exact Except.noConfusion h
    · rw [if_neg he] at h
      cases hp : parse data with
      | error m => rw [hp] at h; exact Except.noConfusion h
      | ok rows =>
        rw [hp] at h
        refine ⟨data, rows, rfl, ?_, hp, (Except.ok.inj h).symm⟩
        intro hnil
        exact he (by rw [hnil]; rfl)

theorem matchesStreet_congr (lower : JSString → JSString) (streets streets2 : List JSString)
    (h : ∀ name, name ∈ streets.map lower ↔ name ∈ streets2.map lower) :
    matchesStreet lower streets = matchesStreet lower streets2 := by
  funext prop
  rw [matchesStreet_eq_decide, matchesStreet_eq_decide]
  exact decide_eq_decide.2 (h _)

theorem matchedPrices_congr (lower : JSString → JSString) (streets streets2 : List JSString)
    (properties : List PropertyRecord)
    (h : ∀ name, name ∈ streets.map lower ↔ name ∈ streets2.map lower) :
    matchedPrices lower streets properties = matchedPrices lower streets2 properties := by
  unfold matchedPrices
  rw [matchesStreet_congr lower streets streets2 h]

/-! ## Claims on `parsePropertyData` -/

/-- C11: the record list produced from the rows delivered by the parser is,
in row order, the list of the records of the rows that have one: a row is
dropped when its street or price field is missing or empty, or when its
parsed price is NaN or at most `0`; every other row yields its street with
its parsed price.  Rows are handled independently: a dropped row leaves the
records of the other rows unchanged, a kept row adds exactly its record at
its place, rows with the same street are all kept, and no row makes the parse
fail. -/
theorem collectRows_spec (rows : List Row) :
    collectRows rows = rows.filterMap recordOfRow ∧
    (∀ more, collectRows (rows ++ more) = collectRows rows ++ collectRows more) ∧
    (∀ row more, recordOfRow row = none →
      collectRows (rows ++ row :: more) = collectRows (rows ++ more)) ∧
    (∀ row more r, recordOfRow row = some r →
      collectRows (rows ++ row :: more) = collectRows rows ++ r :: collectRows more) ∧
    (∀ (parse : JSString → Except JSString (List Row)) (filePath data : JSString),
      trim data ≠ [] → parse data = Except.ok rows →
      parsePropertyData parse filePath (Except.ok data) =
        Except.ok (rows.filterMap recordOfRow)) := by
  refine ⟨collectRows_eq_filterMap rows, ?_, ?_, ?_, ?_⟩
  · intro more
    simp only [collectRows_eq_filterMap, List.filterMap_append]
  · intro row more h
    simp only [collectRows_eq_filterMap, List.filterMap_append, List.filterMap_cons, h]
  · intro row more r h
    simp only [collectRows_eq_filterMap, List.filterMap_append, List.filterMap_cons, h]
  · intro parse filePath data hdata hparse
    rw [parsePropertyData_of_rows parse filePath data rows hdata hparse,
      collectRows_eq_filterMap]

/-- Witness of C11: the rows of the tests "parses CSV correctly with
duplicates" and "skips invalid rows". -/
theorem collectRows_spec_witness :
    parsePropertyData
      (fun _ => Except.ok
        [[("Date of Sale (dd/mm/yyyy)".toList, "01/01/2015".toList),
          ("Address".toList, "APT 274, THE PARKLANDS, NORTHWOOD".toList),
          ("Street Name".toList, "the park".toList),
          ("Price".toList, [Char.ofNat 0xFFFD] ++ "79,500.00".toList)],
         [("Date of Sale (dd/mm/yyyy)".toList, "05/01/2015".toList),
          ("Address".toList, "61 CHARLEMONT, GRIFFITH AVE, DUBLIN 9".toList),
          ("Street Name".toList, "charlemont".toList),
          ("Price".toList, [Char.ofNat 0xFFFD] ++ "557,000.00".toList)],
         [("Date of Sale (dd/mm/yyyy)".toList, "06/01/2015".toList),
          ("Address".toList, "6A Church Street, Finglas, Dublin 11".toList),
          ("Street Name".toList, "church street".toList),
          ("Price".toList, [Char.ofNat 0xFFFD] ++ "160,000.00".toList)]])
      "test.csv".toList (Except.ok "Date of Sale".toList) =
      Except.ok
        [⟨"the park".toList, JSNumber.fin 79500⟩, ⟨"charlemont".toList, JSNumber.fin 557000⟩,
         ⟨"church street".toList, JSNumber.fin 160000⟩] ∧
    collectRows
      [[("Street Name".toList, []),
        ("Price".toList, [Char.ofNat 0xFFFD] ++ "79,500.00".toList)],
       [("Street Name".toList, "charlemont".toList), ("Price".toList, "invalid".toList)]] = [] :=
  ⟨((collectRows_spec _).2.2.2.2 _ "test.csv".toList "Date of Sale".toList (by decide)
      rfl).trans (by decide!),
   ((collectRows_spec _).1).trans (by decide!)⟩

/-- C12, counterexample: a row whose price field is the text Infinity, or a
numeral beyond the range of a Number, yields a record whose price is
`+Infinity`, which is not finite. -/
theorem collectRows_infinite_counterexample :
    collectRows [[("Street Name".toList, "the park".toList),
        ("Price".toList, "Infinity".toList)]] =
      [⟨"the park".toList, JSNumber.posInf⟩] ∧
    collectRows [[("Street Name".toList, "the park".toList),
        ("Price".toList, "1e400".toList)]] =
      [⟨"the park".toList, JSNumber.posInf⟩] ∧
    parsePropertyData
      (fun _ => Except.ok [[("Street Name".toList, "the park".toList),
        ("Price".toList, "Infinity".toList)]])
      "test.csv".toList (Except.ok "Street Name,Price".toList) =
      Except.ok [⟨"the park".toList, JSNumber.posInf⟩] ∧
    JSNumber.posInf.isFinite = false ∧
    ¬ (∀ r ∈ collectRows [[("Street Name".toList, "the park".toList),
        ("Price".toList, "Infinity".toList)]], r.price.isFinite = true) := by
  decide!

/-- C12, amended: every record emitted by `parsePropertyData` has a non-empty
street and a price that is not NaN and is strictly greater than `0`: either a
finite value above `0` or `+Infinity`.  The street and the price are those of
a row: the street field itself and `parsePrice` of the price field. -/
theorem collectRows_records (rows : List Row) (r : PropertyRecord)
    (h : r ∈ collectRows rows) :
    r.street ≠ [] ∧ r.price.isNaN = false ∧ (JSNumber.fin 0).lt r.price = true ∧
    (r.price = JSNumber.posInf ∨ ∃ q : ℚ, r.price = JSNumber.fin q ∧ 0 < q) ∧
    (∃ row ∈ rows, row.lookup streetNameColumn = some r.street ∧
      ∃ priceStr, row.lookup priceColumn = some priceStr ∧ r.price = parsePrice priceStr) ∧
    (∀ (parse : JSString → Except JSString (List Row)) (filePath : JSString)
        (readFile : Except ReadError JSString) (records : List PropertyRecord),
      parsePropertyData parse filePath readFile = Except.ok records →
      ∀ r2 ∈ records, r2.street ≠ [] ∧ r2.price.isNaN = false ∧
        (JSNumber.fin 0).lt r2.price = true) := by
  have key : ∀ (rows : List Row) (r : PropertyRecord), r ∈ collectRows rows →
      ∃ row ∈ rows, recordOfRow row = some r := by
    intro rows r hr
    rw [collectRows_eq_filterMap, List.mem_filterMap] at hr
    exact hr
  obtain ⟨row, hrow, hrec⟩ := key rows r h
  obtain ⟨h1, h2, h3, h4, priceStr, h5, _, h7⟩ := recordOfRow_some hrec
  refine ⟨h1, h2, h3, JSNumber.pos_cases _ h2 h3, ⟨row, hrow, h4, priceStr, h5, h7⟩, ?_⟩
  intro parse filePath readFile records hok r2 hr2
  obtain ⟨data, rows2, _, _, _, rfl⟩ := parsePropertyData_ok_inv parse filePath readFile records hok
  obtain ⟨row2, _, hrec2⟩ := key rows2 r2 hr2
  obtain ⟨g1, g2, g3, _⟩ := recordOfRow_some hrec2
  exact ⟨g1, g2, g3⟩

/-- Witness of C12: the record of the first row of the test data. -/
theorem collectRows_records_witness :
    (⟨"the park".toList, JSNumber.fin 79500⟩ : PropertyRecord) ∈
      collectRows [[("Street Name".toList, "the park".toList),
        ("Price".toList, [Char.ofNat 0xFFFD] ++ "79,500.00".toList)]] ∧
    "the park".toList ≠ [] ∧ (JSNumber.fin 0).lt (JSNumber.fin 79500) = true :=
  ⟨by decide!,
   (collectRows_records
      [[("Street Name".toList, "the park".toList),
        ("Price".toList, [Char.ofNat 0xFFFD] ++ "79,500.00".toList)]]
      ⟨"the park".toList, JSNumber.fin 79500⟩ (by decide!)).1,
   (collectRows_records
      [[("Street Name".toList, "the park".toList),
        ("Price".toList, [Char.ofNat 0xFFFD] ++ "79,500.00".toList)]]
      ⟨"the park".toList, JSNumber.fin 79500⟩ (by decide!)).2.2.1⟩

/-- C13: for a file content that is empty or made of white space only,
`parsePropertyData` fails, with the message of the empty-file error behind
the prefix the `catch` block adds, and yields no record list.  The test comes
before the parser is called, so the outcome is the same for every parser. -/
theorem parsePropertyData_empty (parse parse2 : JSString → Except JSString (List Row))
    (filePath data : JSString) (h : ∀ c ∈ data, isWhiteSpace c = true) :
    parsePropertyData parse filePath (Except.ok data) =
      Except.error (readErrorPrefix ++ emptyFileMessage) ∧
    emptyFileMessage <:+: readErrorPrefix ++ emptyFileMessage ∧
    (∀ records, parsePropertyData parse filePath (Except.ok data) ≠ Except.ok records) ∧
    parsePropertyData parse filePath (Except.ok data) =
      parsePropertyData parse2 filePath (Except.ok data) := by
  have key : ∀ p : JSString → Except JSString (List Row),
      parsePropertyData p filePath (Except.ok data) =
        Except.error (readErrorPrefix ++ emptyFileMessage) := by
    intro p
    simp only [parsePropertyData, trim_eq_nil_of_whiteSpace data h, List.isEmpty_nil, if_true,
      catchBlock]
    rfl
  refine ⟨key parse, List.infix_append' _ _ [] |> fun hh => by simpa using hh, ?_, ?_⟩
  · intro records hr
    rw [key parse] at hr
    exact Except.noConfusion hr
  · rw [key parse, key parse2]

/-- Witness of C13: the empty content of the test "handles empty CSV", and
a content of blanks and line ends, with a parser that would deliver a row. -/
theorem parsePropertyData_empty_witness :
    parsePropertyData (fun _ => Except.ok [[("Street Name".toList, "a".toList),
        ("Price".toList, "5".toList)]]) "test.csv".toList (Except.ok []) =
      Except.error "Error reading CSV: CSV file is empty".toList ∧
    parsePropertyData (fun _ => Except.ok [[("Street Name".toList, "a".toList),
        ("Price".toList, "5".toList)]]) "test.csv".toList (Except.ok " \n\t ".toList) =
      Except.error "Error reading CSV: CSV file is empty".toList :=
  ⟨((parsePropertyData_empty _ (fun _ => Except.ok []) "test.csv".toList [] (by decide)).1).trans
      (by decide),
   ((parsePropertyData_empty _ (fun _ => Except.ok []) "test.csv".toList " \n\t ".toList
      (by decide)).1).trans (by decide)⟩

/-- C14: each average depends on its street list only through the set of the
lower-cased entries.  Replacing a street list by a list with the same set of
lower-cased names (entries repeated, reordered, or changed in letter case)
leaves the selected prices and the average of that category unchanged; in
particular an entry that occurs again in the list does not make a record
count twice. -/
theorem averagePrices_streetSet (lower : JSString → JSString)
    (streets streets2 others : List JSString) (properties : List PropertyRecord)
    (h : ∀ name, name ∈ streets.map lower ↔ name ∈ streets2.map lower) :
    matchedPrices lower streets properties = matchedPrices lower streets2 properties ∧
    (averagePrices lower streets others properties).tallAverage =
      (averagePrices lower streets2 others properties).tallAverage ∧
    (averagePrices lower others streets properties).shortAverage =
      (averagePrices lower others streets2 properties).shortAverage ∧
    (∀ name, matchedPrices lower (name :: name :: streets) properties =
      matchedPrices lower (name :: streets) properties) ∧
    (∀ name, name ∈ streets →
      matchedPrices lower (name :: streets) properties = matchedPrices lower streets properties) ∧
    (∀ perm : List JSString, perm.Perm streets →
      matchedPrices lower perm properties = matchedPrices lower streets properties) ∧
    (∀ recased : List JSString, recased.map lower = streets.map lower →
      matchedPrices lower recased properties = matchedPrices lower streets properties) := by
  have hm := matchedPrices_congr lower streets streets2 properties h
  refine ⟨hm, ?_, ?_, ?_, ?_, ?_, ?_⟩
  · simp only [averagePrices, hm]
  · simp only [averagePrices, hm]
  · intro name
    apply matchedPrices_congr
    intro x
    simp
  · intro name hname
    apply matchedPrices_congr
    intro x
    simp only [List.map_cons, List.mem_cons, List.mem_map]
    constructor
    · rintro (rfl | hx)
      · exact ⟨name, hname, rfl⟩
      · exact hx
    · exact fun hx => Or.inr hx
  · intro perm hperm
    apply matchedPrices_congr
    intro x
    exact (hperm.map lower).mem_iff
  · intro recased hre
    apply matchedPrices_congr
    intro x
    rw [hre]

/-- Witness of C14: the street list of the test with its entry repeated and
written in capitals gives the same tall average, `293500`. -/
theorem averagePrices_streetSet_witness :
    (averagePrices asciiLower
        ["charlemont".toList, "CHARLEMONT".toList, "charlemont".toList]
        ["the park".toList]
        [⟨"charlemont".toList, JSNumber.fin 557000⟩, ⟨"the park".toList, JSNumber.fin 79500⟩,
         ⟨"charlemont".toList, JSNumber.fin 30000⟩]).tallAverage = JSNumber.fin 293500 :=
  ((averagePrices_streetSet asciiLower
      ["charlemont".toList, "CHARLEMONT".toList, "charlemont".toList] ["charlemont".toList]
      ["the park".toList]
      [⟨"charlemont".toList, JSNumber.fin 557000⟩, ⟨"the park".toList, JSNumber.fin 79500⟩,
       ⟨"charlemont".toList, JSNumber.fin 30000⟩]
      (by intro name; simp [asciiLower])).2.1).trans (by decide!)

end TreePropertyAnalyser
